import Mathlib

/-!
Verification of the LinkGuardBot risk-aggregation engine.

This file gives a shallow embedding, in Lean 4, of the Python modules
`src/checks/url_utils.py`, `src/checks/http_fetch.py`,
`src/checks/threat_feeds.py`, `src/checks/headers.py`,
`src/checks/content_scan.py` and `src/risk_engine.py`, together with the
parts of the Python standard library they rely on (`urllib.parse.urlsplit`,
`urllib.parse.urlunsplit`, `urllib.parse.parse_qs`, `ipaddress`).

Python strings are modelled as `List Char`.  Network and file-system
effects are modelled by explicit environment records passed to the
embedded functions; a Python function that can raise is modelled with
`Except String` or `Option`.  Unicode-sensitive Python primitives
(`str.lower`, `str.isdigit`, `str.isspace`) are modelled by their ASCII
restrictions; every concrete input used in a theorem below is ASCII, so
the restriction is invisible to the statements.
-/

namespace LinkGuard

/-- Python strings, modelled as lists of characters. -/
abbrev Str := List Char

/-- Coerce a Lean string literal into the model's string type. -/
def str (s : String) : Str := s.toList

/-- ASCII restriction of Python `str.lower`. -/
def pyLower (s : Str) : Str := s.map Char.toLower

/-- ASCII/Latin-1 part of Python's `str.isspace`. -/
def pyIsSpace (c : Char) : Bool :=
  c = ' ' ∨ c = '\t' ∨ c = '\n' ∨ c = '\r' ∨ c.toNat = 0x0b ∨ c.toNat = 0x0c ∨
  c.toNat = 0x1c ∨ c.toNat = 0x1d ∨ c.toNat = 0x1e ∨ c.toNat = 0x1f ∨
  c.toNat = 0x85 ∨ c.toNat = 0xa0

/-- Python `str.strip()` with the default (whitespace) separator set. -/
def pyStrip (s : Str) : Str :=
  ((s.dropWhile pyIsSpace).reverse.dropWhile pyIsSpace).reverse

/-- `s` begins with the pattern `pat`. -/
def leadsWith (pat s : Str) : Bool :=
  match pat, s with
  | [], _ => true
  | _ :: _, [] => false
  | p :: ps, c :: cs => p = c && leadsWith ps cs

/-- Python's `pat in s` substring test. -/
def hasSub (pat s : Str) : Bool :=
  match s with
  | [] => pat.isEmpty
  | _ :: tl => leadsWith pat s || hasSub pat tl

/-- Split at the first occurrence of `c`: `some (before, after)`, or `none`
if `c` does not occur. -/
def splitOnFirst (c : Char) : Str → Option (Str × Str)
  | [] => none
  | x :: xs =>
    if x = c then some ([], xs)
    else (splitOnFirst c xs).map (fun p => (x :: p.1, p.2))

/-- Python `s.partition(c)` for a one-character separator:
`(before, sep-found?, after)`. -/
def partitionChar (c : Char) (s : Str) : Str × Bool × Str :=
  match splitOnFirst c s with
  | none => (s, false, [])
  | some (a, b) => (a, true, b)

/-- The suffix of `s` after the last occurrence of `c`
(`s.rpartition(c)[2]`, which is all of `s` when `c` is absent). -/
def afterLastChar (c : Char) (s : Str) : Str :=
  (s.reverse.takeWhile (· ≠ c)).reverse

/-- Value of a decimal-digit string (assuming all chars are digits). -/
def digitsToNat (cs : Str) : Nat :=
  cs.foldl (fun a c => a * 10 + (c.toNat - 48)) 0

/-- Decimal digits of `n`, least significant first (empty for 0); the
fuel only bounds the recursion (any fuel at least `n` is exact). -/
def natDigitsRevGo : Nat → Nat → Str
  | 0, _ => []
  | _ + 1, 0 => []
  | fuel + 1, n => Char.ofNat (48 + n % 10) :: natDigitsRevGo fuel (n / 10)

def natDigitsRev (n : Nat) : Str := natDigitsRevGo n n

/-- Decimal representation of a natural number, as the model's string
type (Python `str(n)` for non-negative `n`). -/
def natToDigits (n : Nat) : Str :=
  if n = 0 then ['0'] else (natDigitsRev n).reverse

/-- Value of a hexadecimal-digit string (assuming all chars are hex digits). -/
def hexToNat (cs : Str) : Nat :=
  cs.foldl (fun a c =>
    a * 16 +
      (if c.isDigit then c.toNat - 48
       else if 'a' ≤ c ∧ c ≤ 'f' then c.toNat - 87
       else c.toNat - 55)) 0

def isHexDigit (c : Char) : Bool :=
  c.isDigit ∨ ('a' ≤ c ∧ c ≤ 'f') ∨ ('A' ≤ c ∧ c ≤ 'F')

/-! ## The `ipaddress` standard-library fragment used by the repository

`ipaddress.ip_address` parses a dotted-quad IPv4 address or an RFC-4291
IPv6 address (with optional `%scope`), following CPython's
`IPv4Address._ip_int_from_string` and `IPv6Address._ip_int_from_string`. -/

inductive IpAddr where
  | v4 (val : Nat)
  | v6 (val : Nat)
deriving DecidableEq, Repr

/-- CPython `IPv4Address._parse_octet`: decimal digits only, at most three
characters, no leading zeros, value at most 255. -/
def parseOctet (cs : Str) : Option Nat :=
  if cs.isEmpty then none
  else if ¬ cs.all Char.isDigit then none
  else if cs.length > 3 then none
  else if cs ≠ ['0'] ∧ cs.headD ' ' = '0' then none
  else
    let n := digitsToNat cs
    if n > 255 then none else some n

/-- CPython `IPv4Address._ip_int_from_string`: exactly four octets. -/
def parseIPv4 (s : Str) : Option Nat :=
  match (s.splitOn '.').mapM parseOctet with
  | some [a, b, c, d] => some (((a * 256 + b) * 256 + c) * 256 + d)
  | _ => none

/-- CPython `IPv6Address._parse_hextet`: 1–4 hex digits. -/
def parseHextet (cs : Str) : Option Nat :=
  if cs.isEmpty then none
  else if ¬ cs.all isHexDigit then none
  else if cs.length > 4 then none
  else some (hexToNat cs)

/-- Format a 16-bit value in lower-case hex (CPython `'%x' % v`),
used when an embedded IPv4 tail is rewritten into two hextets. -/
def hextetOfNat (n : Nat) : Str := (Nat.toDigits 16 n).map Char.toLower

/-- CPython `IPv6Address._ip_int_from_string` (without the `%scope`,
which `parseIpAddress` strips beforehand). -/
def parseIPv6Core (s : Str) : Option Nat := do
  let parts := s.splitOn ':'
  if parts.length < 3 then none
  else
    -- an IPv4-style tail becomes two hextets
    let parts ← do
      match parts.getLast? with
      | some last =>
        if hasSub ['.'] last then
          match parseIPv4 last with
          | some v4 =>
            some (parts.dropLast ++ [hextetOfNat (v4 / 65536), hextetOfNat (v4 % 65536)])
          | none => none
        else some parts
      | none => none
    -- locate the `::` (an empty interior part); more than one is an error
    let interior := (parts.drop 1).dropLast
    let skipCount := interior.countP (·.isEmpty)
    if skipCount > 1 then none
    else if skipCount = 1 then
      let skipIdx := 1 + (interior.findIdx (·.isEmpty))
      let partsHi0 := skipIdx
      let partsLo0 := parts.length - skipIdx - 1
      let partsHi := if (parts.headD ['x']).isEmpty then partsHi0 - 1 else partsHi0
      if (parts.headD ['x']).isEmpty ∧ partsHi ≠ 0 then none
      else
        let partsLo := if (parts.getLastD ['x']).isEmpty then partsLo0 - 1 else partsLo0
        if (parts.getLastD ['x']).isEmpty ∧ partsLo ≠ 0 then none
        else
          let partsSkipped := 8 - (partsHi + partsLo)
          if partsHi + partsLo + 1 > 8 then none
          else do
            let hi ← ((parts.take partsHi).mapM parseHextet)
            let lo ← ((parts.drop (parts.length - partsLo)).mapM parseHextet)
            let hiVal := hi.foldl (fun a h => a * 65536 + h) 0
            let loVal := lo.foldl (fun a h => a * 65536 + h) 0
            some ((hiVal <<< (16 * (partsSkipped + partsLo))) + loVal)
    else
      if parts.length ≠ 8 then none
      else if (parts.headD ['x']).isEmpty then none
      else if (parts.getLastD ['x']).isEmpty then none
      else do
        let hs ← parts.mapM parseHextet
        some (hs.foldl (fun a h => a * 65536 + h) 0)

/-- CPython `IPv6Address.__init__`: an optional `%scope_id` suffix is
split off first; an empty scope after `%` is an error. -/
def parseIPv6 (s : Str) : Option Nat :=
  match partitionChar '%' s with
  | (addr, sep, scope) =>
    if sep ∧ scope.isEmpty then none
    else if sep ∧ hasSub ['%'] scope then none
    else parseIPv6Core addr

/-- `ipaddress.ip_address`: IPv4 first, IPv6 second, else a `ValueError`. -/
def parseIpAddress (s : Str) : Option IpAddr :=
  match parseIPv4 s with
  | some v => some (.v4 v)
  | none =>
    match parseIPv6 s with
    | some v => some (.v6 v)
    | none => none

/-- One entry of `ipaddress.ip_network(...)`: version, network value and
prefix length. -/
structure IpNet where
  isV6 : Bool
  base : Nat
  prefixLen : Nat
deriving Repr

/-- `ip in net` (`_BaseNetwork.__contains__`): `False` on a version
mismatch, otherwise a prefix comparison. -/
def ipInNet (ip : IpAddr) (net : IpNet) : Bool :=
  match ip with
  | .v4 v => ¬ net.isV6 ∧ (v >>> (32 - net.prefixLen)) = (net.base >>> (32 - net.prefixLen))
  | .v6 v => net.isV6 ∧ (v >>> (128 - net.prefixLen)) = (net.base >>> (128 - net.prefixLen))

end LinkGuard

namespace LinkGuard.HttpFetch

/-- `FORBIDDEN_NETS` from `src/checks/http_fetch.py` (lines 16–25). -/
def FORBIDDEN_NETS : List IpNet :=
  [ ⟨false, (parseIPv4 (str "127.0.0.0")).getD 0, 8⟩,
    ⟨false, (parseIPv4 (str "10.0.0.0")).getD 0, 8⟩,
    ⟨false, (parseIPv4 (str "172.16.0.0")).getD 0, 12⟩,
    ⟨false, (parseIPv4 (str "192.168.0.0")).getD 0, 16⟩,
    ⟨false, (parseIPv4 (str "169.254.0.0")).getD 0, 16⟩,
    ⟨true, (parseIPv6 (str "::1")).getD 0, 128⟩,
    ⟨true, (parseIPv6 (str "fc00::")).getD 0, 7⟩,
    ⟨true, (parseIPv6 (str "fe80::")).getD 0, 10⟩ ]

/-- `is_forbidden_ip` from `src/checks/http_fetch.py` (lines 40–45):
unparsable strings are not forbidden; otherwise membership in any of the
private/loopback/link-local ranges. -/
def is_forbidden_ip (ipStr : Str) : Bool :=
  match parseIpAddress ipStr with
  | none => false
  | some ip => FORBIDDEN_NETS.any (ipInNet ip)

end LinkGuard.HttpFetch

namespace LinkGuard.UrlLib

open LinkGuard

/-! ## The `urllib.parse` fragment used by the repository

`urlsplit`, `urlunsplit`, the `hostname`/`port` accessors of
`SplitResult`, and `parse_qs`, following CPython's `urllib/parse.py`
(3.11-era semantics: tab/CR/LF stripping and bracketed-host checking
included). -/

structure SplitResult where
  scheme : Str
  netloc : Str
  path : Str
  query : Str
  fragment : Str
deriving Repr, DecidableEq

/-- CPython `scheme_chars`: ASCII letters, digits, `+`, `-`, `.`. -/
def schemeChar (c : Char) : Bool :=
  c.isAlpha ∨ c.isDigit ∨ c = '+' ∨ c = '-' ∨ c = '.'

/-- `_UNSAFE_URL_BYTES_TO_REMOVE`: every tab, CR and LF is removed from
the URL before splitting. -/
def removeUnsafeBytes (s : Str) : Str :=
  s.filter (fun c => c ≠ '\t' ∧ c ≠ '\r' ∧ c ≠ '\n')

/-- The scheme-extraction step of `urlsplit`: the text before the first
`:` is a scheme when it is non-empty, starts with an ASCII letter and
consists of scheme characters; it is then lower-cased. -/
def splitScheme (url : Str) : Str × Str :=
  match splitOnFirst ':' url with
  | none => ([], url)
  | some (pre, post) =>
    if pre ≠ [] ∧ (pre.headD ' ').isAlpha ∧ pre.all schemeChar then (pyLower pre, post)
    else ([], url)

/-- `_splitnetloc` (applied after the leading `//`): the netloc runs to
the first `/`, `?` or `#`. -/
def netlocStop (c : Char) : Bool := c = '/' ∨ c = '?' ∨ c = '#'

/-- `_check_bracketed_host`: a bracketed host must be an IPvFuture
literal (`v` + hex + `.` + non-empty tail) or a parsable IPv6 address;
a bracketed IPv4 address is rejected.  `Except` carries the `ValueError`
message (modelled without CPython's `repr` interpolation). -/
def checkBracketedHost (host : Str) : Except Str Unit :=
  if leadsWith (str "v") host then
    match host with
    | _ :: rest =>
      let hex := rest.takeWhile isHexDigit
      let rem := rest.dropWhile isHexDigit
      let tailOk : Bool := match rem with | '.' :: tl => ¬ tl.isEmpty | _ => false
      if hex ≠ [] ∧ tailOk then .ok ()
      else .error (str "IPvFuture address is invalid")
    | [] => .error (str "IPvFuture address is invalid")
  else
    match parseIpAddress host with
    | some (.v6 _) => .ok ()
    | some (.v4 _) => .error (str "An IPv4 address cannot be in brackets")
    | none => .error (str "does not appear to be an IPv4 or IPv6 address")

/-- The netloc-extraction step of `urlsplit`: when the remainder starts
with `//`, take the netloc up to the first `/`, `?` or `#`, reject
unbalanced brackets ("Invalid IPv6 URL") and validate a bracketed
host. -/
def splitNetlocChecked (url2 : Str) : Except Str (Str × Str) :=
  if leadsWith (str "//") url2 then
    let rest := url2.drop 2
    let netloc := rest.takeWhile (fun c => ¬ netlocStop c)
    let url3 := rest.dropWhile (fun c => ¬ netlocStop c)
    if (hasSub ['['] netloc ∧ ¬ hasSub [']'] netloc) ∨
       (hasSub [']'] netloc ∧ ¬ hasSub ['['] netloc) then
      .error (str "Invalid IPv6 URL")
    else if hasSub ['['] netloc ∧ hasSub [']'] netloc then
      match checkBracketedHost ((partitionChar ']' (partitionChar '[' netloc).2.2).1) with
      | .error e => .error e
      | .ok _ => .ok (netloc, url3)
    else .ok (netloc, url3)
  else .ok ([], url2)

/-- CPython `urlsplit` (with `allow_fragments=True`).  The only failure
modes are an unbalanced bracket in the netloc and an invalid bracketed
host. -/
def urlsplit (url0 : Str) : Except Str SplitResult :=
  let url1 := removeUnsafeBytes url0
  let (scheme, url2) := splitScheme url1
  match splitNetlocChecked url2 with
  | .error e => .error e
  | .ok (netloc, url3) =>
    let (url4, fragment) :=
      match splitOnFirst '#' url3 with
      | none => (url3, [])
      | some (a, b) => (a, b)
    let (path, query) :=
      match splitOnFirst '?' url4 with
      | none => (url4, [])
      | some (a, b) => (a, b)
    .ok { scheme, netloc, path, query, fragment }

/-- CPython `urlunsplit`. -/
def urlunsplit (scheme netloc path query fragment : Str) : Str :=
  let url := path
  let url :=
    if netloc ≠ [] ∨ (url ≠ [] ∧ leadsWith (str "//") url) then
      let url' := if url ≠ [] ∧ ¬ leadsWith (str "/") url then '/' :: url else url
      str "//" ++ netloc ++ url'
    else url
  let url := if scheme ≠ [] then scheme ++ ':' :: url else url
  let url := if query ≠ [] then url ++ '?' :: query else url
  let url := if fragment ≠ [] then url ++ '#' :: fragment else url
  url

/-- `SplitResult._hostinfo`: strip the userinfo (after the last `@`),
then either the bracketed host with a port after `]:`, or the text
before the first `:` with the port after it; an empty port is `None`. -/
def hostinfoOf (netloc : Str) : Str × Option Str :=
  let hostinfo := afterLastChar '@' netloc
  let (_, haveOpenBr, bracketed) := partitionChar '[' hostinfo
  if haveOpenBr then
    let (hostname, _, portRest) := partitionChar ']' bracketed
    let port := (partitionChar ':' portRest).2.2
    (hostname, if port = [] then none else some port)
  else
    let (hostname, _, port) := partitionChar ':' hostinfo
    (hostname, if port = [] then none else some port)

/-- `SplitResult.hostname`: lower-cased, `None` when empty. -/
def hostnameOf (netloc : Str) : Option Str :=
  let h := (hostinfoOf netloc).1
  if h = [] then none else some (pyLower h)

/-- `SplitResult.port`: decimal digits, at most 65535, else a
`ValueError`.  (CPython's `int()` also tolerates signs, surrounding
whitespace and `_` separators; those exotic spellings are not
modelled.) -/
def portOf (netloc : Str) : Except Str (Option Nat) :=
  match (hostinfoOf netloc).2 with
  | none => .ok none
  | some p =>
    if p.all Char.isDigit then
      let n := digitsToNat p
      if n ≤ 65535 then .ok (some n)
      else .error (str "Port out of range 0-65535")
    else .error (str "Port could not be cast to integer value")

/-! ### `parse_qs` / `parse_qsl` / `unquote` -/

/-- UTF-8 bytes of a character. -/
def utf8EncodeChar (c : Char) : List Nat :=
  let n := c.toNat
  if n < 0x80 then [n]
  else if n < 0x800 then [0xC0 + n / 64, 0x80 + n % 64]
  else if n < 0x10000 then [0xE0 + n / 4096, 0x80 + (n / 64) % 64, 0x80 + n % 64]
  else [0xF0 + n / 262144, 0x80 + (n / 4096) % 64, 0x80 + (n / 64) % 64, 0x80 + n % 64]

def isContByte (b : Nat) : Bool := 0x80 ≤ b ∧ b ≤ 0xBF

/-- UTF-8 decoding; `repl` is what an undecodable byte contributes
(`['�']` for `errors="replace"`, `[]` for `errors="ignore"`; the exact
number of replacements CPython emits for a malformed multi-byte
sequence may differ, which no theorem below depends on). -/
def utf8DecodeWithGo (repl : Str) : Nat → List Nat → Str
  | 0, _ => []
  | _ + 1, [] => []
  | fuel + 1, b :: rest =>
    if b < 0x80 then Char.ofNat b :: utf8DecodeWithGo repl fuel rest
    else if 0xC2 ≤ b ∧ b ≤ 0xDF then
      match rest with
      | b1 :: rest' =>
        if isContByte b1 then
          Char.ofNat ((b - 0xC0) * 64 + (b1 - 0x80)) :: utf8DecodeWithGo repl fuel rest'
        else repl ++ utf8DecodeWithGo repl fuel (b1 :: rest')
      | [] => repl
    else if 0xE0 ≤ b ∧ b ≤ 0xEF then
      match rest with
      | b1 :: b2 :: rest' =>
        let lo1 := if b = 0xE0 then 0xA0 else 0x80
        let hi1 := if b = 0xED then 0x9F else 0xBF
        if (lo1 ≤ b1 ∧ b1 ≤ hi1) ∧ isContByte b2 then
          Char.ofNat ((b - 0xE0) * 4096 + (b1 - 0x80) * 64 + (b2 - 0x80))
            :: utf8DecodeWithGo repl fuel rest'
        else repl ++ utf8DecodeWithGo repl fuel (b1 :: b2 :: rest')
      | _ => repl
    else if 0xF0 ≤ b ∧ b ≤ 0xF4 then
      match rest with
      | b1 :: b2 :: b3 :: rest' =>
        let lo1 := if b = 0xF0 then 0x90 else 0x80
        let hi1 := if b = 0xF4 then 0x8F else 0xBF
        if (lo1 ≤ b1 ∧ b1 ≤ hi1) ∧ isContByte b2 ∧ isContByte b3 then
          Char.ofNat ((b - 0xF0) * 262144 + (b1 - 0x80) * 4096 + (b2 - 0x80) * 64 + (b3 - 0x80))
            :: utf8DecodeWithGo repl fuel rest'
        else repl ++ utf8DecodeWithGo repl fuel (b1 :: b2 :: b3 :: rest')
      | _ => repl
    else repl ++ utf8DecodeWithGo repl fuel rest

/-- The fuel (one unit per decoded unit, so the byte count is always
enough) only bounds the recursion. -/
def utf8DecodeWith (repl : Str) (bs : List Nat) : Str :=
  utf8DecodeWithGo repl bs.length bs

/-- `bytes.decode("utf-8", errors="replace")`. -/
def utf8Decode (bs : List Nat) : Str := utf8DecodeWith ['�'] bs

/-- `bytes.decode("utf-8", errors="ignore")`. -/
def utf8DecodeIgnore (bs : List Nat) : Str := utf8DecodeWith [] bs

/-- Percent-decoding to a byte sequence: `%XX` with two hex digits is a
byte, every other character contributes its UTF-8 bytes. -/
def percentDecodeBytes : Str → List Nat
  | [] => []
  | '%' :: h1 :: h2 :: rest =>
    if isHexDigit h1 ∧ isHexDigit h2 then
      hexToNat [h1, h2] :: percentDecodeBytes rest
    else utf8EncodeChar '%' ++ percentDecodeBytes (h1 :: h2 :: rest)
  | c :: rest => utf8EncodeChar c ++ percentDecodeBytes rest

/-- `urllib.parse.unquote` with the default UTF-8/`replace` arguments. -/
def pyUnquote (s : Str) : Str := utf8Decode (percentDecodeBytes s)

/-- `parse_qsl(qs)` with the default arguments: split on `&`, skip empty
chunks, skip chunks without `=` and chunks with an empty value, map
`+` to space and percent-decode names and values. -/
def parse_qsl (qs : Str) : List (Str × Str) :=
  let queryArgs := if qs = [] then [] else qs.splitOn '&'
  queryArgs.filterMap fun nameValue =>
    if nameValue = [] then none
    else
      match splitOnFirst '=' nameValue with
      | none => none
      | some (name, value) =>
        if value = [] then none
        else
          let plusToSpace := fun (t : Str) => t.map (fun c => if c = '+' then ' ' else c)
          some (pyUnquote (plusToSpace name), pyUnquote (plusToSpace value))

/-- The key set of `parse_qs(qs)` in first-insertion order. -/
def parse_qs_keys (qs : Str) : List Str :=
  ((parse_qsl qs).map (·.1)).foldl (fun acc x => if x ∈ acc then acc else acc ++ [x]) []

end LinkGuard.UrlLib

namespace LinkGuard.UrlUtils

open LinkGuard LinkGuard.UrlLib

/-! ## `src/checks/url_utils.py` -/

/-- `NormalizedURL` (lines 8–16). -/
structure NormalizedURL where
  original : Str
  normalized : Str
  scheme : Str
  host : Str
  path : Str
  query : Str
  display_host : Str
deriving Repr, DecidableEq

/-- `SUSPICIOUS_PARAMS` (line 19). -/
def SUSPICIOUS_PARAMS : List Str :=
  [str "redirect", str "url", str "next", str "continue", str "return"]

/-- `SHORTENERS` (lines 20–34). -/
def SHORTENERS : List Str :=
  [str "bit.ly", str "t.co", str "tinyurl.com", str "goo.gl", str "ow.ly",
   str "buff.ly", str "cutt.ly", str "is.gd", str "bitly.com", str "rebrand.ly",
   str "tiny.cc", str "t.ly", str "lc.chat"]

/-- `decode_idn` (lines 37–45).  The IDNA decoder itself is the
environment parameter `dec` (`none` models its exception path); the
function's own structure — empty and non-`xn--` hosts pass through, and
an exception returns the host unchanged — is explicit. -/
def decode_idn (dec : Str → Option Str) (host : Str) : Str :=
  if host = [] then host
  else if hasSub (str "xn--") host then (dec host).getD host
  else host

/-- `to_punycode` (lines 48–54).  For an all-ASCII host Python's
`host.encode("idna")` either returns the host unchanged (every label
non-empty and short enough) or raises — and the exception path also
returns the host unchanged, so the function is the identity there.  For
hosts with non-ASCII characters the IDNA encoder is the environment
parameter `enc` (`none` models its exception path). -/
def to_punycode (enc : Str → Option Str) (host : Str) : Str :=
  if host = [] then host
  else if host.all (fun c => c.toNat < 128) then host
  else (enc host).getD host

/-- The `https://` prefixing of lines 61–62 and 87–88. -/
def prefixScheme (raw : Str) : Str :=
  if ¬ hasSub (str "://") raw then str "https://" ++ raw else raw

/-- The reconstructed netloc of lines 68–70 (and 94–96): the host,
plus the port when `parts.port` is truthy. -/
def reconNetloc (host : Str) (port : Option Nat) : Str :=
  match port with
  | some p => if p ≠ 0 then host ++ ':' :: natToDigits p else host
  | none => host

/-- The value `parts.port` takes when the netloc built by `reconNetloc`
is parsed back (a proof-layer normal form: the port survives exactly
when it was truthy). -/
def portNorm (port : Option Nat) : Option Nat :=
  match port with
  | some p => if p ≠ 0 then some p else none
  | none => none

/-- Lines 63–80 of `normalize_url` (after stripping and prefixing). -/
def normalize_parsed (dec : Str → Option Str) (raw : Str) : Except Str NormalizedURL := do
  let parts ← urlsplit raw
  let scheme := pyLower parts.scheme
  let host := pyLower ((hostnameOf parts.netloc).getD [])
  let path := if parts.path = [] then str "/" else parts.path
  let query := parts.query
  let port ← portOf parts.netloc
  let normalized := urlunsplit scheme (reconNetloc host port) path query []
  pure { original := raw, normalized := normalized, scheme := scheme, host := host,
         path := path, query := query, display_host := decode_idn dec host }

/-- `normalize_url` (lines 57–80).  `Except` models the `ValueError`
raised on empty input and the `ValueError` that `parts.port` can
raise. -/
def normalize_url (dec : Str → Option Str) (raw0 : Str) : Except Str NormalizedURL :=
  let raw := pyStrip raw0
  if raw = [] then Except.error (str "Empty URL")
  else normalize_parsed dec (prefixScheme raw)

/-- Lines 89–97 of `normalize_for_lookup` (after whitespace removal
and prefixing): identical to `normalize_parsed` except that the host
is punycoded and only the canonical string is returned. -/
def lookup_parsed (enc : Str → Option Str) (raw : Str) : Except Str Str := do
  let parts ← urlsplit raw
  let scheme := pyLower parts.scheme
  let host := to_punycode enc (pyLower ((hostnameOf parts.netloc).getD []))
  let path := if parts.path = [] then str "/" else parts.path
  let query := parts.query
  let port ← portOf parts.netloc
  pure (urlunsplit scheme (reconNetloc host port) path query [])

/-- `normalize_for_lookup` (lines 83–97). -/
def normalize_for_lookup (enc : Str → Option Str) (raw0 : Str) : Except Str Str :=
  let raw := (pyStrip raw0).filter (fun c => ¬ pyIsSpace c)
  if raw = [] then Except.error (str "Empty URL")
  else lookup_parsed enc (prefixScheme raw)

/-- `is_ip_address` (lines 100–105). -/
def is_ip_address (host : Str) : Bool := (parseIpAddress host).isSome

/-- `is_shortener` (lines 108–109). -/
def is_shortener (host : Str) : Bool := host ∈ SHORTENERS

/-- `suspicious_params` (lines 112–118). -/
def suspicious_params (query : Str) : List Str :=
  (parse_qs_keys query).filter (fun k => pyLower k ∈ SUSPICIOUS_PARAMS)

/-- Lexicographic comparison of the model's strings (Python `<` on
`str`). -/
def strLt : Str → Str → Bool
  | [], [] => false
  | [], _ :: _ => true
  | _ :: _, [] => false
  | a :: as, b :: bs => a < b ∨ (a = b ∧ strLt as bs)

/-- Insert into a sorted list, after any equal elements. -/
def insertSorted (x : Str) : List Str → List Str
  | [] => [x]
  | y :: ys => if strLt x y then x :: y :: ys else y :: insertSorted x ys

/-- Python `sorted` on a list of strings (stable insertion sort). -/
def sortStrs (l : List Str) : List Str := l.foldl (fun acc x => insertSorted x acc) []

def joinWith (sep : Str) : List Str → Str
  | [] => []
  | [x] => x
  | x :: xs => x ++ sep ++ joinWith sep xs

/-- Python `sorted(set(l))`. -/
def sortedSet (l : List Str) : List Str := sortStrs l.dedup

/-- `evaluate_risk` (lines 121–165): sequential accumulation of the nine
additive signals. -/
def evaluate_risk (n : NormalizedURL) : Int × List Str :=
  let score : Int := 0
  let reasons : List Str := []
  let (score, reasons) :=
    if hasSub ['@'] n.original then
      (score + 15, reasons ++ [str "Символ @ в ссылке может скрывать реальный адрес."])
    else (score, reasons)
  let (score, reasons) :=
    if is_ip_address n.host then
      (score + 20, reasons ++ [str "Вместо домена используется IP-адрес."])
    else (score, reasons)
  let (score, reasons) :=
    if is_shortener n.host then
      (score + 10, reasons ++ [str "Используется сервис сокращения ссылок."])
    else (score, reasons)
  let suspicious := suspicious_params n.query
  let (score, reasons) :=
    if suspicious ≠ [] then
      (score + 15, reasons ++ [str "Подозрительные параметры: " ++ joinWith (str ", ") (sortedSet suspicious)])
    else (score, reasons)
  let labels := (n.host.splitOn '.').filter (· ≠ [])
  let (score, reasons) :=
    if labels.length > 4 then
      (score + 10, reasons ++ [str "Слишком много поддоменов."])
    else (score, reasons)
  let (score, reasons) :=
    if n.host.length > 50 then
      (score + 10, reasons ++ [str "Домен слишком длинный."])
    else (score, reasons)
  let hyphens := n.host.count '-'
  let digits := n.host.countP Char.isDigit
  let (score, reasons) :=
    if hyphens ≥ 4 then
      (score + 10, reasons ++ [str "В домене много дефисов."])
    else (score, reasons)
  let (score, reasons) :=
    if digits ≥ 5 then
      (score + 10, reasons ++ [str "В домене много цифр."])
    else (score, reasons)
  let (score, reasons) :=
    if n.scheme ≠ str "https" then
      (score + 5, reasons ++ [str "Ссылка не использует HTTPS."])
    else (score, reasons)
  (score, reasons)

end LinkGuard.UrlUtils

namespace LinkGuard.HttpFetch

open LinkGuard LinkGuard.UrlLib

/-! ## `src/checks/http_fetch.py` (continued): the SSRF-guarded fetcher

The network is modelled by a `FetchEnv`: DNS resolution
(`loop.getaddrinfo`, `none` = `OSError`), the HTTP transport
(one outcome per URL), and `urllib.parse.urljoin` (abstracted, since no
claim depends on the join algebra).  `safe_fetch` additionally returns
the instrumentation `trace`: the list of URLs for which a GET was
actually issued, in order — this is what the per-hop SSRF claim
quantifies over.  `Except` models a `ValueError` escaping `urlsplit`
(the only exception the Python function does not catch). -/

def MAX_REDIRECTS : Nat := 5
def MAX_BODY_BYTES : Nat := 200000

structure HttpResponse where
  status : Nat
  headers : List (Str × Str)
  url : Str
  bodyBytes : List Nat

inductive HttpOutcome where
  | resp (r : HttpResponse)
  | timeout
  | clientError (msg : Str)

structure FetchEnv where
  getaddrinfo : Str → Option (List Str)
  http : Str → HttpOutcome
  joinUrl : Str → Str → Str

/-- `FetchResult` (lines 28–37). -/
structure FetchResult where
  final_url : Str
  status : Option Nat
  headers : List (Str × Str)
  body_text : Option Str
  content_type : Option Str
  redirect_chain : List Str
  blocked_reason : Option Str
  error : Option Str
deriving Repr

/-- Case-insensitive header lookup (aiohttp's `CIMultiDict.get`). -/
def headerGet (hs : List (Str × Str)) (name : Str) : Option Str :=
  (hs.find? (fun p => pyLower p.1 = pyLower name)).map (·.2)

/-- `dict(resp.headers)`: collapse duplicate (case-sensitive) keys,
last value wins, first-occurrence order. -/
def dictOf (hs : List (Str × Str)) : List (Str × Str) :=
  hs.foldl
    (fun acc kv =>
      if acc.any (fun p => p.1 = kv.1) then
        acc.map (fun p => if p.1 = kv.1 then (p.1, kv.2) else p)
      else acc ++ [kv])
    []

/-- `_resolve_host` (lines 48–60): a literal IP resolves to itself;
otherwise the sorted set of resolved addresses, `[]` on `OSError`. -/
def _resolve_host (env : FetchEnv) (host : Str) : List Str :=
  match parseIpAddress host with
  | some _ => [host]
  | none =>
    match env.getaddrinfo host with
    | none => []
    | some ips => UrlUtils.sortStrs ips.dedup

/-- `_host_is_allowed` (lines 63–72). -/
def _host_is_allowed (env : FetchEnv) (host : Str) : Bool × Option Str :=
  if host = [] then (false, some (str "URL без домена."))
  else
    let ips := _resolve_host env host
    if ips = [] then (false, some (str "DNS не отвечает или домен не существует."))
    else
      match ips.find? (fun ip => is_forbidden_ip ip) with
      | some ip => (false, some (str "Домен резолвится в приватный адрес " ++ ip ++ str "."))
      | none => (true, none)

/-- `_read_body` (lines 75–88). -/
def _read_body (r : HttpResponse) : Option Str :=
  let contentType := (headerGet r.headers (str "Content-Type")).getD []
  if ¬ leadsWith (str "text/html") (pyLower contentType) then none
  else
    let lengthHdr := (headerGet r.headers (str "Content-Length")).getD []
    if lengthHdr ≠ [] ∧ lengthHdr.all Char.isDigit ∧ digitsToNat lengthHdr > MAX_BODY_BYTES then
      none
    else
      let data := r.bodyBytes.take (MAX_BODY_BYTES + 1)
      if data.length > MAX_BODY_BYTES then none
      else some (utf8DecodeIgnore data)

/-- One iteration of the `for step in range(MAX_REDIRECTS + 1)` loop of
`safe_fetch` (lines 97–126), with `fuel = MAX_REDIRECTS + 1 - step`;
the `fuel = 0` case is the (unreachable) fall-through return of
line 128.  The second component is the GET trace, which is reported
even when a `ValueError` (the `.error` case) propagates. -/
def fetch_steps (env : FetchEnv) :
    Nat → Str → List Str → List Str → Except Str FetchResult × List Str
  | 0, current, chain, trace =>
    (.ok ⟨current, none, [], none, none, chain, none, some (str "Неизвестная ошибка.")⟩, trace)
  | fuel + 1, current, chain, trace =>
    match urlsplit current with
    | .error e => (.error e, trace)
    | .ok parts =>
      if ¬ (parts.scheme = str "http" ∨ parts.scheme = str "https") then
        (.ok ⟨current, none, [], none, none, chain,
              some (str "Разрешены только http/https ссылки."), none⟩, trace)
      else
        match _host_is_allowed env ((hostnameOf parts.netloc).getD []) with
        | (false, reason) =>
          (.ok ⟨current, none, [], none, none, chain, reason, none⟩, trace)
        | (true, _) =>
          let trace := trace ++ [current]
          match env.http current with
          | .timeout =>
            (.ok ⟨current, none, [], none, none, chain, none, some (str "Таймаут запроса.")⟩,
             trace)
          | .clientError msg =>
            (.ok ⟨current, none, [], none, none, chain, none,
                  some (str "Ошибка запроса: " ++ msg)⟩, trace)
          | .resp r =>
            let status := r.status
            let headers := dictOf r.headers
            if status = 301 ∨ status = 302 ∨ status = 303 ∨ status = 307 ∨ status = 308 then
              match headerGet r.headers (str "Location") with
              | none => (.ok ⟨current, some status, headers, none, none, chain, none, none⟩, trace)
              | some location =>
                let chain := chain ++ [current]
                if fuel = 0 then
                  (.ok ⟨current, some status, headers, none, none, chain, none,
                        some (str "Слишком много редиректов.")⟩, trace)
                else
                  fetch_steps env fuel (env.joinUrl current location) chain trace
            else
              let bodyText := _read_body r
              let contentType := headerGet r.headers (str "Content-Type")
              (.ok ⟨r.url, some status, headers, bodyText, contentType, chain, none, none⟩, trace)

/-- `safe_fetch` (lines 91–128), with the GET trace. -/
def safe_fetch (env : FetchEnv) (url : Str) : Except Str FetchResult × List Str :=
  fetch_steps env (MAX_REDIRECTS + 1) url [] []

end LinkGuard.HttpFetch

namespace LinkGuard.ThreatFeeds

open LinkGuard LinkGuard.UrlLib LinkGuard.UrlUtils

/-! ## `src/checks/threat_feeds.py`

The clock, the in-memory cache, the `meta.json` contents, the on-disk
cache file and the network fetch outcome are a `FeedEnv` snapshot.
Python `set[str]` fields are modelled as first-insertion-order
deduplicated lists.  `Except` models the `ValueError` that
`url_utils.normalize_url` can raise out of `_parse_lines` (it is inside
the `try` only on the network-refresh path, where the fallback re-parse
of the just-written file raises it again). -/

def CACHE_TTL_SECONDS : Int := 6 * 60 * 60

structure FeedFinding where
  source : Str
  match_type : Str
  detail : Str
deriving Repr, DecidableEq

structure FeedData where
  name : Str
  urls : List Str
  domains : List Str
  loaded_at : Int
  stale : Bool
deriving Repr, DecidableEq

structure FeedConfig where
  name : Str
  url : Str

/-- `FEEDS` (lines 44–46). -/
def FEEDS : List FeedConfig :=
  [⟨str "URLhaus", str "https://urlhaus.abuse.ch/downloads/text/"⟩]

/-- Python line-break characters recognised by `str.splitlines`. -/
def pyIsLineBreak (c : Char) : Bool :=
  c = '\n' ∨ c = '\r' ∨ c.toNat = 0x0b ∨ c.toNat = 0x0c ∨ c.toNat = 0x1c ∨
  c.toNat = 0x1d ∨ c.toNat = 0x1e ∨ c.toNat = 0x85 ∨ c.toNat = 0x2028 ∨ c.toNat = 0x2029

/-- `str.splitlines()`. -/
def pySplitlines : Str → List Str
  | [] => []
  | '\r' :: '\n' :: rest => [] :: pySplitlines rest
  | c :: rest =>
    if pyIsLineBreak c then [] :: pySplitlines rest
    else
      match pySplitlines rest with
      | [] => [[c]]
      | l :: ls => (c :: l) :: ls

/-- Add an element to a Python-set-as-list. -/
def addSet (l : List Str) (x : Str) : List Str := if x ∈ l then l else l ++ [x]

/-- Python `s.rstrip("/")`. -/
def rstripSlash (s : Str) : Str := (s.reverse.dropWhile (· = '/')).reverse

/-- `_parse_lines` (lines 82–103).  `urlsplit` failures skip the line
(its `try`/`continue`); a `ValueError` from `normalize_url` (e.g. an
out-of-range port on a feed line) propagates. -/
def _parse_lines (dec : Str → Option Str) (lines : List Str) :
    Except Str (List Str × List Str) :=
  lines.foldlM
    (fun acc line => do
      let value := pyStrip line
      if value = [] ∨ leadsWith ['#'] value then pure acc
      else
        let value := if ¬ leadsWith (str "http") value then str "http://" ++ value else value
        match urlsplit value with
        | .error _ => pure acc
        | .ok parts =>
          match hostnameOf parts.netloc with
          | none => pure acc
          | some h =>
            let host := pyLower h
            let domains := addSet acc.2 host
            let n ← normalize_url dec value
            let normalized := rstripSlash (pyLower n.normalized)
            pure (addSet acc.1 normalized, domains))
    ([], [])

/-- Environment snapshot for one `_load_feed` call. -/
structure FeedEnv where
  /-- `asyncio.get_running_loop().time()`. -/
  now : Int
  /-- `_cache.get(config.name)`. -/
  memCache : Option FeedData
  /-- `meta.get(config.name)` as read from `meta.json` (`none` when the
  file is absent, unreadable or has no entry). -/
  metaTime : Option Int
  /-- Contents of the on-disk cache file when `path.exists()`. -/
  diskText : Option Str
  /-- Outcome of the network-refresh `try` block up to (and including)
  the write of the fetched text: `some text` when `_fetch_text`,
  `path.write_text` and `_save_meta` all succeed, `none` when any of
  them raises, in which case `diskText` is the state the `except`
  branch observes. -/
  fetchResult : Option Str

/-- The in-memory snapshot is younger than the TTL (lines 116–119). -/
def memFresh (env : FeedEnv) : Bool :=
  match env.memCache with
  | some cached => env.now - cached.loaded_at < CACHE_TTL_SECONDS
  | none => false

/-- `meta.get(config.name)` is truthy (line 126's `cached_at and ...`). -/
def metaTruthy (env : FeedEnv) : Bool :=
  match env.metaTime with | some t => t ≠ 0 | none => false

/-- The on-disk cache is present and younger than the TTL (line 126). -/
def diskFresh (env : FeedEnv) : Bool :=
  metaTruthy env ∧ env.diskText.isSome ∧ env.now - (env.metaTime.getD 0) < CACHE_TTL_SECONDS

/-- `_load_feed` (lines 114–150). -/
def _load_feed (dec : Str → Option Str) (env : FeedEnv) (config : FeedConfig) :
    Except Str FeedData :=
  if memFresh env then .ok (env.memCache.getD ⟨config.name, [], [], 0, false⟩)
  else if diskFresh env then do
    let (urls, domains) ← _parse_lines dec (pySplitlines (env.diskText.getD []))
    .ok ⟨config.name, urls, domains, env.metaTime.getD 0, false⟩
  else
    match env.fetchResult with
    | some text => do
      let (urls, domains) ← _parse_lines dec (pySplitlines text)
      .ok ⟨config.name, urls, domains, env.now, false⟩
    | none =>
      match env.diskText with
      | some text => do
        let (urls, domains) ← _parse_lines dec (pySplitlines text)
        .ok ⟨config.name, urls, domains,
             (if metaTruthy env then env.metaTime.getD 0 else env.now), true⟩
      | none => .ok ⟨config.name, [], [], env.now, true⟩

/-- The key `check_url` matches against the feed's URL set (line 155):
the engine-normalized URL, lower-cased, with trailing slashes
stripped. -/
def feed_match_key (url : Str) : Str := rstripSlash (pyLower url)

/-- `check_url` (lines 153–172). -/
def check_url (dec : Str → Option Str) (envs : FeedConfig → FeedEnv) (url host : Str) :
    Except Str (List FeedFinding) := do
  let normalized := feed_match_key url
  let host := pyLower host
  FEEDS.foldlM
    (fun findings config => do
      let data ← _load_feed dec (envs config) config
      if normalized ∈ data.urls then
        let detail := str "совпадение URL" ++ (if data.stale then str " (кеш устарел)" else [])
        pure (findings ++ [⟨config.name, str "url", detail⟩])
      else if host ∈ data.domains then
        let detail := str "совпадение домена" ++ (if data.stale then str " (кеш устарел)" else [])
        pure (findings ++ [⟨config.name, str "domain", detail⟩])
      else pure findings)
    []

end LinkGuard.ThreatFeeds

namespace LinkGuard.Headers

open LinkGuard

/-! ## `src/checks/headers.py` -/

def REQUIRED_HEADERS : List Str :=
  [str "Strict-Transport-Security", str "Content-Security-Policy",
   str "X-Frame-Options", str "X-Content-Type-Options", str "Referrer-Policy"]

/-- `missing_security_headers` (lines 14–16). -/
def missing_security_headers (headers : List (Str × Str)) : List Str :=
  let present := headers.map (fun p => pyLower p.1)
  REQUIRED_HEADERS.filter (fun h => ¬ pyLower h ∈ present)

end LinkGuard.Headers

namespace LinkGuard.ContentScan

open LinkGuard LinkGuard.UrlLib LinkGuard.UrlUtils

/-! ## `src/checks/content_scan.py`

The module's case-insensitive regexes are applied to the already
lower-cased page text, so they reduce to plain scans:
`FORM_RE`/`IFRAME_RE` are a literal followed by a word boundary,
`PASSWORD_RE`/`EMAIL_RE`/`META_REFRESH_RE` are a literal with an
optional quote (the trailing optional quote never affects whether a
match exists), and `ACTION_RE`/`METHOD_RE`/`SCRIPT_SRC_RE` capture a
non-empty double-quoted group, with the regex engine's leftmost scan
and greedy `[^>]+` modelled explicitly. -/

structure ContentFinding where
  reason : Str
  technical : Str
  score : Int
deriving Repr, DecidableEq

def SUSPICIOUS_WORDS : List Str :=
  [str "login", str "password", str "verify", str "account", str "signin",
   str "bank", str "update", str "security", str "confirm"]

def DANGEROUS_WORDS : List Str :=
  [str "download", str "installer", str "setup", str "update now", str "browser update"]

def isWordChar (c : Char) : Bool := c.isAlpha ∨ c.isDigit ∨ c = '_'

/-- `re.search` of `lit` followed by `\b` (a word boundary; `lit` ends
in a word character for every pattern that uses this). -/
def searchBoundary (pat : Str) : Str → Bool
  | [] => false
  | c :: tl =>
    let boundaryOk : Bool :=
      match (c :: tl).drop pat.length with
      | [] => true
      | d :: _ => ¬ isWordChar d
    (leadsWith pat (c :: tl) && boundaryOk) || searchBoundary pat tl

/-- `re.search` of `pre` + `"?` + `word` (+ an optional trailing quote,
irrelevant to existence). -/
def searchOptQuoted (pre word : Str) (s : Str) : Bool :=
  hasSub (pre ++ word) s ∨ hasSub (pre ++ '"' :: word) s

/-- `re.search` of `lit` + `([^"]+)` + `"`: the group of the leftmost
match. -/
def searchGroupQuoted (lit : Str) : Str → Option Str
  | [] => none
  | c :: tl =>
    if leadsWith lit (c :: tl) then
      let after := (c :: tl).drop lit.length
      let grp := after.takeWhile (· ≠ '"')
      if ¬ grp.isEmpty ∧ leadsWith ['"'] (after.drop grp.length) then some grp
      else searchGroupQuoted lit tl
    else searchGroupQuoted lit tl

/-- One attempted match of `SCRIPT_SRC_RE` just after a `<script`
literal: greedy `[^>]+`, then `src="`, then the group; returns the
group and the suffix after the match. -/
def scriptMatchAt (after : Str) : Option (Str × Str) :=
  let maxJ := (after.takeWhile (· ≠ '>')).length
  ((List.range (maxJ + 1)).reverse.findSome? fun j =>
    if 1 ≤ j ∧ leadsWith (str "src=\"") (after.drop j) then
      let tailAt := (after.drop j).drop 5
      let grp := tailAt.takeWhile (· ≠ '"')
      if ¬ grp.isEmpty ∧ leadsWith ['"'] (tailAt.drop grp.length) then
        some (grp, tailAt.drop (grp.length + 1))
      else none
    else none)

/-- `SCRIPT_SRC_RE.findall`: leftmost, non-overlapping scan.  The fuel
equals the scanned length; every step either advances one position or
consumes a whole match, so it never runs out before the scan ends. -/
def scriptSrcFindGo : Nat → Str → List Str
  | 0, _ => []
  | _, [] => []
  | fuel + 1, c :: tl =>
    if leadsWith (str "<script") (c :: tl) then
      match scriptMatchAt ((c :: tl).drop 7) with
      | some (g, rest) => g :: scriptSrcFindGo fuel rest
      | none => scriptSrcFindGo fuel tl
    else scriptSrcFindGo fuel tl

def scriptSrcFind (s : Str) : List Str := scriptSrcFindGo s.length s

/-- `_host_from_url` (lines 37–41). -/
def _host_from_url (url : Str) : Str :=
  match urlsplit url with
  | .error _ => []
  | .ok parts => pyLower ((hostnameOf parts.netloc).getD [])

/-- `analyze_html` (lines 44–169). -/
def analyze_html (html : Str) (base_host : Str) : List ContentFinding :=
  let lowered := pyLower html
  let hasForm := searchBoundary (str "<form") lowered
  let hasPassword := searchOptQuoted (str "type=") (str "password") lowered
  let hasEmail := searchOptQuoted (str "type=") (str "email") lowered
  let findings : List ContentFinding :=
    if hasForm ∧ hasPassword then
      [⟨str "Обнаружена форма ввода пароля.", str "Контент: форма с полем password", 25⟩]
    else if hasForm ∧ hasEmail then
      [⟨str "Обнаружена форма с email-полем.", str "Контент: форма с полем email", 12⟩]
    else if hasForm then
      [⟨str "На странице есть форма ввода данных.", str "Контент: форма ввода", 10⟩]
    else []
  let findings :=
    match searchGroupQuoted (str "action=\"") lowered with
    | some actionUrl =>
      let actionHost := _host_from_url actionUrl
      let findings :=
        if actionHost ≠ [] ∧ actionHost ≠ pyLower base_host then
          findings ++ [⟨str "Форма отправляет данные на другой домен.",
                        str "Контент: form action -> " ++ actionHost, 15⟩]
        else findings
      let findings :=
        if leadsWith (str "mailto:") (pyLower actionUrl) then
          findings ++ [⟨str "Форма отправляет данные на email.",
                        str "Контент: form action -> mailto", 15⟩]
        else findings
      if leadsWith (str "http://") (pyLower actionUrl) then
        findings ++ [⟨str "Форма отправляет данные по незащищенному HTTP.",
                      str "Контент: form action -> http", 10⟩]
      else findings
    | none => findings
  let findings :=
    match searchGroupQuoted (str "method=\"") lowered with
    | some m =>
      if pyLower m = str "post" ∧ hasForm then
        findings ++ [⟨str "Форма отправляет данные методом POST.",
                      str "Контент: form method=post", 5⟩]
      else findings
    | none => findings
  let findings :=
    if searchBoundary (str "<iframe") lowered then
      findings ++ [⟨str "На странице используются iframe.", str "Контент: iframe", 6⟩]
    else findings
  let findings :=
    if searchOptQuoted (str "http-equiv=") (str "refresh") lowered then
      findings ++ [⟨str "Есть auto-redirect через meta refresh.", str "Контент: meta refresh", 8⟩]
    else findings
  let scriptHosts := ((scriptSrcFind lowered).map _host_from_url).filter (· ≠ [])
  let externalScripts := (scriptHosts.filter (· ≠ pyLower base_host)).dedup
  let findings :=
    if externalScripts.length ≥ 3 then
      findings ++ [⟨str "Подключено много внешних скриптов.",
                    str "Контент: внешние скрипты: " ++
                      joinWith (str ", ") ((sortStrs externalScripts).take 5), 8⟩]
    else findings
  let hitWords := SUSPICIOUS_WORDS.filter (fun w => hasSub w lowered)
  let findings :=
    if hitWords ≠ [] then
      findings ++ [⟨str "Есть слова, характерные для фишинга или логина.",
                    str "Контент: ключевые слова: " ++ joinWith (str ", ") hitWords, 5⟩]
    else findings
  let dangerHits := DANGEROUS_WORDS.filter (fun w => hasSub w lowered)
  if dangerHits ≠ [] then
    findings ++ [⟨str "Есть признаки навязывания загрузки или обновления.",
                  str "Контент: слова: " ++ joinWith (str ", ") dangerHits, 8⟩]
  else findings

end LinkGuard.ContentScan

namespace LinkGuard.RiskEngine

open LinkGuard LinkGuard.UrlLib LinkGuard.UrlUtils LinkGuard.HttpFetch
open LinkGuard.ThreatFeeds LinkGuard.Headers LinkGuard.ContentScan

/-! ## `src/risk_engine.py`

The four concurrently awaited lookups (threat feeds, Google Safe
Browsing, the HTTP fetch, VirusTotal) and the conditional urlscan.io
lookup are network coroutines; their awaited outcomes are supplied by a
`GatherEnv`.  `TaskOutcome.timedOut` is `asyncio.TimeoutError` escaping
`asyncio.wait_for`, `TaskOutcome.raised` is any other exception the
coroutine leaks — both are folded by `_with_timeout` exactly as in the
source. -/

/-- `SafeBrowsingResult` from `src/checks/safe_browsing.py` (the fields
`analyze_url` reads). -/
structure SafeBrowsingResult where
  status : Str
  threats : List Str
  detail : Str
deriving Repr, DecidableEq

/-- `ReputationResult` from `src/checks/reputation.py`. -/
structure ReputationResult where
  status : Str
  detail : Str
  malicious : Int
  suspicious : Int
  total : Int
deriving Repr, DecidableEq

/-- `UrlscanResult` from `src/checks/urlscan.py`. -/
structure UrlscanResult where
  status : Str
  detail : Str
  result_url : Option Str
deriving Repr, DecidableEq

/-- `Report` (lines 18–31). -/
structure Report where
  normalized_url : Str
  scheme : Str
  host : Str
  path : Str
  query : Str
  display_host : Str
  risk_score : Int
  risk_level : Str
  reasons : List Str
  technical : List Str
  intel : List Str
  unavailable : List Str
deriving Repr, DecidableEq

/-- `_risk_level` (lines 34–39). -/
def _risk_level (score : Int) : Str :=
  if score ≥ 70 then str "HIGH"
  else if score ≥ 35 then str "MEDIUM"
  else str "LOW"

/-- The number of distinct non-null hosts among the chain's hosts plus
the final URL's host (line 47 of `_redirect_summary`). -/
def redirect_host_changes (chain : List Str) (final_url : Str) : Except Str Nat := do
  let hosts ← chain.mapM (fun url => (urlsplit url).map (fun p => hostnameOf p.netloc))
  let finalHost ← (urlsplit final_url).map (fun p => hostnameOf p.netloc)
  pure ((hosts ++ [finalHost]).filterMap id).dedup.length

/-- `_redirect_summary` (lines 42–52).  `Except` models the
`ValueError` that `urlsplit` could raise on a chain entry (never hit
from `safe_fetch` output, whose chain entries were split
successfully). -/
def _redirect_summary (chain : List Str) (final_url : Str) : Except Str (Int × Option Str) :=
  if chain = [] then .ok (0, none)
  else do
    let hostChanges ← redirect_host_changes chain final_url
    if hostChanges > 1 then .ok (10, some (str "Редиректы на разные домены."))
    else if chain.length ≥ 2 then .ok (5, some (str "Несколько редиректов подряд."))
    else .ok (0, none)

/-- The awaited state of one wrapped coroutine. -/
inductive TaskOutcome (α : Type) where
  | completed (a : α)
  | timedOut
  | raised

/-- Return value of `_with_timeout` (lines 55–62): the
`("ok", result) | ("timeout", msg) | ("error", msg)` tagged pair. -/
inductive WTResult (α : Type) where
  | ok (a : α)
  | timeout (msg : Str)
  | error (msg : Str)

/-- `_with_timeout` (lines 55–62). -/
def _with_timeout (outcome : TaskOutcome α) (label : Str) : WTResult α :=
  match outcome with
  | .completed a => .ok a
  | .timedOut => .timeout (label ++ str ": таймаут.")
  | .raised => .error (label ++ str ": ошибка.")

/-- Awaited outcomes of the five lookups of one `analyze_url` run. -/
structure GatherEnv where
  feeds : TaskOutcome (List FeedFinding)
  gsb : TaskOutcome SafeBrowsingResult
  fetch : TaskOutcome FetchResult
  vt : TaskOutcome ReputationResult
  urlscan : TaskOutcome UrlscanResult

/-- Lines 90–101 of `analyze_url`: merge the threat-feed outcome into
the `(score, reasons, intel, unavailable)` state. -/
def feeds_merge (o : TaskOutcome (List FeedFinding)) :
    Int × List Str × List Str × List Str → Int × List Str × List Str × List Str
  | (score, reasons, intel, unavailable) =>
    match _with_timeout o (str "Публичные базы") with
    | .ok feedHits =>
      if feedHits ≠ [] then
        (score + 60,
         reasons ++ [str "Совпадение в публичных базах угроз."],
         intel ++ feedHits.map (fun (hit : FeedFinding) => hit.source ++ str ": " ++ hit.detail),
         unavailable)
      else (score, reasons, intel ++ [str "Публичные базы: совпадений нет."], unavailable)
    | .timeout msg => (score, reasons, intel, unavailable ++ [msg])
    | .error msg => (score, reasons, intel, unavailable ++ [msg])

/-- Lines 103–112: merge the Google Safe Browsing outcome. -/
def gsb_merge (o : TaskOutcome SafeBrowsingResult) :
    Int × List Str × List Str × List Str → Int × List Str × List Str × List Str
  | (score, reasons, intel, unavailable) =>
    match _with_timeout o (str "Google Safe Browsing") with
    | .ok g =>
      let intel := intel ++ [g.detail]
      if g.status = str "hit" then
        (max score 80, reasons ++ [str "Google Safe Browsing: обнаружены угрозы."],
         intel, unavailable)
      else if g.status = str "error" then (score, reasons, intel, unavailable ++ [g.detail])
      else (score, reasons, intel, unavailable)
    | .timeout msg => (score, reasons, intel, unavailable ++ [msg])
    | .error msg => (score, reasons, intel, unavailable ++ [msg])

/-- Lines 114–123: merge the VirusTotal outcome. -/
def vt_merge (o : TaskOutcome ReputationResult) :
    Int × List Str × List Str × List Str → Int × List Str × List Str × List Str
  | (score, reasons, intel, unavailable) =>
    match _with_timeout o (str "VirusTotal") with
    | .ok v =>
      let intel := intel ++ [v.detail]
      if v.status = str "hit" then
        (max score 70, reasons ++ [str "VirusTotal: обнаружены срабатывания."],
         intel, unavailable)
      else if v.status = str "error" then (score, reasons, intel, unavailable ++ [v.detail])
      else (score, reasons, intel, unavailable)
    | .timeout msg => (score, reasons, intel, unavailable ++ [msg])
    | .error msg => (score, reasons, intel, unavailable ++ [msg])

/-- Lines 125–162: merge the fetch outcome into the
`(score, reasons, technical, unavailable)` state; the `Except` is the
`ValueError` that `_redirect_summary`'s `urlsplit` could raise. -/
def fetch_merge (o : TaskOutcome FetchResult) (normalized : NormalizedURL) :
    Int × List Str × List Str × List Str →
      Except Str (Int × List Str × List Str × List Str)
  | (score, reasons, technical, unavailable) =>
    match _with_timeout o (str "HTTP запрос") with
    | .ok fr =>
      match fr.blocked_reason with
      | some blocked =>
        pure (score + 25, reasons ++ [blocked],
              technical ++ [str "Запрос заблокирован: " ++ blocked], unavailable)
      | none =>
        match fr.error with
        | some err =>
          pure (score + 5, reasons ++ [str "Не удалось безопасно получить ответ сайта."],
                technical, unavailable ++ [err])
        | none => do
          let statusText := match fr.status with | some n => natToDigits n | none => str "None"
          let technical := technical ++ [str "HTTP статус: " ++ statusText] ++
            [str "Финальный URL: " ++ fr.final_url]
          let technical :=
            match fr.content_type with
            | some ct => technical ++ [str "Content-Type: " ++ ct]
            | none => technical
          let missing := missing_security_headers fr.headers
          let (score, reasons, technical) :=
            if missing ≠ [] then
              (score + min 25 (5 * (missing.length : Int)),
               reasons ++ [str "Нет защитных заголовков: " ++ joinWith (str ", ") missing],
               technical ++ [str "Защитные заголовки: отсутствуют " ++ joinWith (str ", ") missing])
            else (score, reasons,
                  technical ++ [str "Защитные заголовки: все основные присутствуют"])
          let (score, reasons, technical) ←
            if fr.redirect_chain ≠ [] then do
              let technical := technical ++
                [str "Редиректы: " ++ joinWith (str " -> ") (fr.redirect_chain ++ [fr.final_url])]
              let (redirectScore, redirectReason) ← _redirect_summary fr.redirect_chain fr.final_url
              match redirectReason with
              | some reason => pure (score + redirectScore, reasons ++ [reason], technical)
              | none => pure (score, reasons, technical)
            else pure (score, reasons, technical)
          match fr.body_text with
          | some body =>
            if body ≠ [] then
              let findings := analyze_html body normalized.host
              pure (score + (findings.map (fun (f : ContentFinding) => f.score)).sum,
                    reasons ++ findings.map (fun (f : ContentFinding) => f.reason),
                    technical ++ findings.map (fun (f : ContentFinding) => f.technical),
                    unavailable)
            else pure (score, reasons, technical, unavailable)
          | none => pure (score, reasons, technical, unavailable)
    | .timeout msg => pure (score, reasons, technical, unavailable ++ [msg])
    | .error msg => pure (score, reasons, technical, unavailable ++ [msg])

/-- Lines 164–180: the conditional urlscan.io merge into the
`(intel, unavailable)` state. -/
def urlscan_merge (o : TaskOutcome UrlscanResult) (deepcheck : Bool) (score : Int) :
    List Str × List Str → List Str × List Str
  | (intel, unavailable) =>
    if deepcheck ∨ score ≥ 70 then
      match _with_timeout o (str "urlscan.io") with
      | .ok s =>
        let line :=
          match s.result_url with
          | some u => if u ≠ [] then s.detail ++ str " " ++ u else s.detail
          | none => s.detail
        let intel := intel ++ [line]
        if s.status = str "error" then (intel, unavailable ++ [s.detail])
        else (intel, unavailable)
      | .timeout msg => (intel, unavailable ++ [msg])
      | .error msg => (intel, unavailable ++ [msg])
    else (intel ++ [str "urlscan.io: пропущено (запусти /deepcheck для полного скана)."],
          unavailable)

/-- Lines 90–180 of `analyze_url`: merge the lookup outcomes into the
running `(score, reasons, technical, intel, unavailable)` state, one
source block at a time. -/
def analyze_core (env : GatherEnv) (normalized : NormalizedURL) (deepcheck : Bool) :
    Except Str (Int × List Str × List Str × List Str × List Str) := do
  let (score, reasons) := evaluate_risk normalized
  let technical : List Str := []
  let (score, reasons, intel, unavailable) :=
    vt_merge env.vt (gsb_merge env.gsb (feeds_merge env.feeds (score, reasons, [], [])))
  let (score, reasons, technical, unavailable) ←
    fetch_merge env.fetch normalized (score, reasons, technical, unavailable)
  let (intel, unavailable) := urlscan_merge env.urlscan deepcheck score (intel, unavailable)
  pure (score, reasons, technical, intel, unavailable)

/-- Lines 182–201 of `analyze_url`: clamp the score, map it to a level,
default the reasons, build the `Report`. -/
def composeReport (normalized : NormalizedURL) (score : Int)
    (reasons technical intel unavailable : List Str) : Report :=
  let score := max 0 (min 100 score)
  let level := _risk_level score
  let reasons := if reasons = [] then reasons ++ [str "Явных признаков риска не найдено."] else reasons
  { normalized_url := normalized.normalized, scheme := normalized.scheme,
    host := normalized.host, path := normalized.path, query := normalized.query,
    display_host := normalized.display_host, risk_score := score, risk_level := level,
    reasons := reasons, technical := technical, intel := intel, unavailable := unavailable }

/-- `analyze_url` (lines 65–201). -/
def analyze_url (dec : Str → Option Str) (env : GatherEnv) (raw_url : Str)
    (deepcheck : Bool) : Except Str Report := do
  let normalized ← normalize_url dec raw_url
  let (score, reasons, technical, intel, unavailable) ← analyze_core env normalized deepcheck
  pure (composeReport normalized score reasons technical intel unavailable)

end LinkGuard.RiskEngine

namespace LinkGuard

open LinkGuard.UrlLib LinkGuard.UrlUtils LinkGuard.HttpFetch LinkGuard.ThreatFeeds
open LinkGuard.RiskEngine

/-! ## Concrete environments used by witnesses -/

/-- A trivial IDNA codec stand-in; only reachable for non-ASCII hosts,
which no witness input has. -/
def noIdna : Str → Option Str := fun _ => none

/-- All five lookups time out. -/
def allTimeoutEnv : GatherEnv :=
  ⟨.timedOut, .timedOut, .timedOut, .timedOut, .timedOut⟩

/-- One lookup (the threat feeds) leaks an unhandled exception while
every other source completes normally: a blocked fetch, clean Safe
Browsing, VirusTotal and urlscan results. -/
def mixedEnv : GatherEnv :=
  ⟨.raised,
   .completed ⟨str "clean", [], str "Google Safe Browsing: угроз не найдено."⟩,
   .completed ⟨str "https://example.com/", none, [], none, none, [],
               some (str "Запрошен внутренний адрес."), none⟩,
   .completed ⟨str "clean", str "VirusTotal: чисто.", 0, 0, 0⟩,
   .completed ⟨str "queued", str "urlscan.io: отчет в очереди.", none⟩⟩

/-- The report produced for `example.com` under `mixedEnv`. -/
def mixedReport : Report :=
  match analyze_url noIdna mixedEnv (str "example.com") false with
  | .ok r => r
  | .error _ => ⟨[], [], [], [], [], [], 0, [], [], [], [], []⟩

/-- A fetch environment in which `ok.com` resolves publicly and
302-redirects to `internal.host`, which resolves to `10.0.0.5`. -/
def redirectToInternalEnv : FetchEnv where
  getaddrinfo h :=
    if h = str "ok.com" then some [str "93.184.216.34"]
    else if h = str "internal.host" then some [str "10.0.0.5"]
    else none
  http u :=
    if u = str "http://ok.com/" then
      .resp ⟨302, [(str "Location", str "http://internal.host/")], u, []⟩
    else .resp ⟨200, [(str "Content-Type", str "text/plain")], u, []⟩
  joinUrl _ loc := loc

/-- A fetch environment that always 301-redirects. -/
def alwaysRedirectEnv : FetchEnv where
  getaddrinfo _ := some [str "93.184.216.34"]
  http u := .resp ⟨301, [(str "Location", str "http://ok.com/r")], u, []⟩
  joinUrl _ loc := loc

/-- A feed-cache environment: cold caches, failed refresh, one
malicious URL on disk. -/
def staleDiskFeedEnv : FeedEnv where
  now := 1000000
  memCache := none
  metaTime := none
  diskText := some (str "# comment\nhttp://evil.example/mal\n")
  fetchResult := none

/-- A feed-cache environment: cold caches, failed refresh, and a disk
cache whose single line carries an out-of-range port. -/
def badPortFeedEnv : FeedEnv where
  now := 1000000
  memCache := none
  metaTime := none
  diskText := some (str "http://evil.example:99999/mal\n")
  fetchResult := none

/-- A feed-cache environment: cold caches, failed refresh, no disk
file. -/
def emptyFeedEnv : FeedEnv where
  now := 1000000
  memCache := none
  metaTime := none
  diskText := none
  fetchResult := none

/-- A GET target that passed the per-hop SSRF gate: its URL splits, its
scheme is http(s), and its host resolved to allowed addresses only. -/
def allowed_get_target (env : FetchEnv) (u : Str) : Prop :=
  ∃ parts, urlsplit u = .ok parts ∧
    (parts.scheme = str "http" ∨ parts.scheme = str "https") ∧
    _host_is_allowed env ((hostnameOf parts.netloc).getD []) = (true, none)

/-- The `FetchResult` of `safe_fetch` under `alwaysRedirectEnv`. -/
def alwaysRedirectResult : FetchResult :=
  match (safe_fetch alwaysRedirectEnv (str "http://ok.com/")).1 with
  | .ok fr => fr
  | .error _ => ⟨[], none, [], none, none, [], none, none⟩

/-- The report produced for `example.com` when every lookup times
out. -/
def timeoutReport : Report :=
  match analyze_url noIdna allTimeoutEnv (str "example.com") false with
  | .ok r => r
  | .error _ => ⟨[], [], [], [], [], [], 0, [], [], [], [], []⟩

/-- The `NormalizedURL` of `https://example.com:8080/a?b=c`. -/
def idemNorm : NormalizedURL :=
  ⟨str "https://example.com:8080/a?b=c", str "https://example.com:8080/a?b=c",
   str "https", str "example.com", str "/a", str "b=c", str "example.com"⟩

/-- The `NormalizedURL` of `example.com`. -/
def exampleNorm : NormalizedURL :=
  ⟨str "https://example.com", str "https://example.com/", str "https",
   str "example.com", str "/", [], str "example.com"⟩

end LinkGuard

namespace LinkGuard

open LinkGuard.UrlLib LinkGuard.UrlUtils LinkGuard.HttpFetch LinkGuard.ThreatFeeds
open LinkGuard.Headers LinkGuard.ContentScan LinkGuard.RiskEngine

/-! # Theorems

General-purpose lemmas first, then one theorem per claim (with its
witness or counterexample). -/

theorem pushIfInt (c : Prop) [Decidable c] (X k : Int) :
    (if c then X + k else X) = X + (if c then k else 0) := by split <;> simp

/-! ## C6: the heuristic evaluator is the additive weighted table -/

/-- C6: for every `NormalizedURL`, `evaluate_risk`'s score is the
uncapped sum of the nine shipped contributions (+15 for `@` in the
original input, +20 for a literal-IP host, +10 for a known shortener,
+15 for a suspicious query key, +10 for more than 4 labels, +10 for a
host longer than 50, +10 for at least 4 hyphens, +10 for at least 5
digits, +5 for non-https), where the suspicious-key condition is
exactly "some parsed query key lower-cases into
{redirect, url, next, continue, return}". -/
theorem evaluate_risk_additive_table (n : NormalizedURL) :
    (evaluate_risk n).1 =
      (if hasSub ['@'] n.original then 15 else 0) +
      (if is_ip_address n.host then 20 else 0) +
      (if is_shortener n.host then 10 else 0) +
      (if suspicious_params n.query ≠ [] then 15 else 0) +
      (if ((n.host.splitOn '.').filter (· ≠ [])).length > 4 then 10 else 0) +
      (if n.host.length > 50 then 10 else 0) +
      (if n.host.count '-' ≥ 4 then 10 else 0) +
      (if n.host.countP Char.isDigit ≥ 5 then 10 else 0) +
      (if n.scheme ≠ str "https" then 5 else 0) ∧
    (suspicious_params n.query ≠ [] ↔
      ∃ k ∈ parse_qs_keys n.query, pyLower k ∈ SUSPICIOUS_PARAMS) := by
  constructor
  · unfold evaluate_risk
    simp only [apply_ite (Prod.fst : Int × List Str → Int)]
    simp only [pushIfInt, Int.zero_add]
  · simp [suspicious_params, List.filter_eq_nil_iff]

/-! ## C3: composed-report invariants -/

theorem composeReport_props (n : NormalizedURL) (s : Int) (r t i u : List Str) :
    0 ≤ (composeReport n s r t i u).risk_score ∧
    (composeReport n s r t i u).risk_score ≤ 100 ∧
    ((composeReport n s r t i u).risk_level = str "LOW" ↔
      (composeReport n s r t i u).risk_score < 35) ∧
    ((composeReport n s r t i u).risk_level = str "MEDIUM" ↔
      (35 ≤ (composeReport n s r t i u).risk_score ∧
       (composeReport n s r t i u).risk_score ≤ 69)) ∧
    ((composeReport n s r t i u).risk_level = str "HIGH" ↔
      70 ≤ (composeReport n s r t i u).risk_score) ∧
    (composeReport n s r t i u).reasons ≠ [] := by
  unfold composeReport _risk_level
  dsimp only
  refine ⟨by omega, by omega, ?_, ?_, ?_, ?_⟩
  · split_ifs with h1 h2 <;> simp [str] <;> omega
  · split_ifs with h1 h2 <;> simp [str] <;> omega
  · split_ifs with h1 h2 <;> simp [str] <;> omega
  · split <;> simp_all

/-- Every successful `analyze_url` result went through the composition
stage (lines 182–201). -/
theorem analyze_ok_inv (dec : Str → Option Str) (env : GatherEnv) (raw : Str)
    (deepcheck : Bool) (rep : Report) (h : analyze_url dec env raw deepcheck = .ok rep) :
    ∃ n s r t i u, rep = composeReport n s r t i u := by
  unfold analyze_url at h
  cases hn : normalize_url dec raw with
  | error e => rw [hn] at h; simp [Bind.bind, Except.bind] at h
  | ok n =>
    rw [hn] at h
    simp only [Bind.bind, Except.bind] at h
    cases hc : analyze_core env n deepcheck with
    | error e => rw [hc] at h; simp at h
    | ok tup =>
      obtain ⟨s, r, t, i, u⟩ := tup
      rw [hc] at h
      simp [pure, Except.pure] at h
      exact ⟨n, s, r, t, i, u, h.symm⟩

/-- C3: every report an analysis produces has its score clamped into
[0, 100], its level determined exactly by the 35/70 thresholds, and a
non-empty reason list (the default reason when no check contributed
one). -/
theorem report_risk_invariants (dec : Str → Option Str) (env : GatherEnv) (raw : Str)
    (deepcheck : Bool) (rep : Report) (h : analyze_url dec env raw deepcheck = .ok rep) :
    0 ≤ rep.risk_score ∧ rep.risk_score ≤ 100 ∧
    (rep.risk_level = str "LOW" ↔ rep.risk_score < 35) ∧
    (rep.risk_level = str "MEDIUM" ↔ (35 ≤ rep.risk_score ∧ rep.risk_score ≤ 69)) ∧
    (rep.risk_level = str "HIGH" ↔ 70 ≤ rep.risk_score) ∧
    rep.reasons ≠ [] := by
  obtain ⟨n, s, r, t, i, u, rfl⟩ := analyze_ok_inv dec env raw deepcheck rep h
  exact composeReport_props n s r t i u

/-- Witness for C3 at `example.com` with every lookup timed out. -/
theorem report_risk_invariants_witness :
    0 ≤ timeoutReport.risk_score ∧ timeoutReport.risk_score ≤ 100 ∧
    (timeoutReport.risk_level = str "LOW" ↔ timeoutReport.risk_score < 35) ∧
    (timeoutReport.risk_level = str "MEDIUM" ↔
      (35 ≤ timeoutReport.risk_score ∧ timeoutReport.risk_score ≤ 69)) ∧
    (timeoutReport.risk_level = str "HIGH" ↔ 70 ≤ timeoutReport.risk_score) ∧
    timeoutReport.reasons ≠ [] :=
  report_risk_invariants noIdna allTimeoutEnv (str "example.com") false timeoutReport (by rfl)

/-! ## C2: per-source failure never aborts the analysis -/

/-- The feeds merge only ever appends to `unavailable`, and a timed-out
or crashed feeds lookup appends exactly its detail string. -/
theorem feeds_merge_unavailable (o : TaskOutcome (List FeedFinding))
    (st : Int × List Str × List Str × List Str) :
    (∀ x ∈ st.2.2.2, x ∈ (feeds_merge o st).2.2.2) ∧
    (o = .timedOut → str "Публичные базы: таймаут." ∈ (feeds_merge o st).2.2.2) ∧
    (o = .raised → str "Публичные базы: ошибка." ∈ (feeds_merge o st).2.2.2) := by
  rcases st with ⟨s, r, i, u⟩
  cases o with
  | completed a =>
    refine ⟨?_, fun he => TaskOutcome.noConfusion he, fun he => TaskOutcome.noConfusion he⟩
    intro x hx
    show x ∈ ((feeds_merge (.completed a) (s, r, i, u)).2.2.2)
    unfold feeds_merge _with_timeout
    dsimp only
    split
    · exact hx
    · exact hx
  | timedOut =>
    refine ⟨fun x hx => List.mem_append.mpr (Or.inl hx), fun _ => ?_, fun he => TaskOutcome.noConfusion he⟩
    show str "Публичные базы: таймаут." ∈ u ++ [str "Публичные базы" ++ str ": таймаут."]
    rw [show str "Публичные базы" ++ str ": таймаут." = str "Публичные базы: таймаут." by decide]
    exact List.mem_append.mpr (Or.inr (List.mem_singleton_self _))
  | raised =>
    refine ⟨fun x hx => List.mem_append.mpr (Or.inl hx), fun he => TaskOutcome.noConfusion he, fun _ => ?_⟩
    show str "Публичные базы: ошибка." ∈ u ++ [str "Публичные базы" ++ str ": ошибка."]
    rw [show str "Публичные базы" ++ str ": ошибка." = str "Публичные базы: ошибка." by decide]
    exact List.mem_append.mpr (Or.inr (List.mem_singleton_self _))

/-- As `feeds_merge_unavailable`, for the Safe Browsing merge. -/
theorem gsb_merge_unavailable (o : TaskOutcome SafeBrowsingResult)
    (st : Int × List Str × List Str × List Str) :
    (∀ x ∈ st.2.2.2, x ∈ (gsb_merge o st).2.2.2) ∧
    (o = .timedOut → str "Google Safe Browsing: таймаут." ∈ (gsb_merge o st).2.2.2) ∧
    (o = .raised → str "Google Safe Browsing: ошибка." ∈ (gsb_merge o st).2.2.2) := by
  rcases st with ⟨s, r, i, u⟩
  cases o with
  | completed g =>
    refine ⟨?_, fun he => TaskOutcome.noConfusion he, fun he => TaskOutcome.noConfusion he⟩
    intro x hx
    show x ∈ ((gsb_merge (.completed g) (s, r, i, u)).2.2.2)
    unfold gsb_merge _with_timeout
    dsimp only
    split
    · exact hx
    · split
      · exact List.mem_append.mpr (Or.inl hx)
      · exact hx
  | timedOut =>
    refine ⟨fun x hx => List.mem_append.mpr (Or.inl hx), fun _ => ?_, fun he => TaskOutcome.noConfusion he⟩
    show str "Google Safe Browsing: таймаут." ∈
      u ++ [str "Google Safe Browsing" ++ str ": таймаут."]
    rw [show str "Google Safe Browsing" ++ str ": таймаут." =
      str "Google Safe Browsing: таймаут." by decide]
    exact List.mem_append.mpr (Or.inr (List.mem_singleton_self _))
  | raised =>
    refine ⟨fun x hx => List.mem_append.mpr (Or.inl hx), fun he => TaskOutcome.noConfusion he, fun _ => ?_⟩
    show str "Google Safe Browsing: ошибка." ∈
      u ++ [str "Google Safe Browsing" ++ str ": ошибка."]
    rw [show str "Google Safe Browsing" ++ str ": ошибка." =
      str "Google Safe Browsing: ошибка." by decide]
    exact List.mem_append.mpr (Or.inr (List.mem_singleton_self _))

/-- As `feeds_merge_unavailable`, for the VirusTotal merge. -/
theorem vt_merge_unavailable (o : TaskOutcome ReputationResult)
    (st : Int × List Str × List Str × List Str) :
    (∀ x ∈ st.2.2.2, x ∈ (vt_merge o st).2.2.2) ∧
    (o = .timedOut → str "VirusTotal: таймаут." ∈ (vt_merge o st).2.2.2) ∧
    (o = .raised → str "VirusTotal: ошибка." ∈ (vt_merge o st).2.2.2) := by
  rcases st with ⟨s, r, i, u⟩
  cases o with
  | completed v =>
    refine ⟨?_, fun he => TaskOutcome.noConfusion he, fun he => TaskOutcome.noConfusion he⟩
    intro x hx
    show x ∈ ((vt_merge (.completed v) (s, r, i, u)).2.2.2)
    unfold vt_merge _with_timeout
    dsimp only
    split
    · exact hx
    · split
      · exact List.mem_append.mpr (Or.inl hx)
      · exact hx
  | timedOut =>
    refine ⟨fun x hx => List.mem_append.mpr (Or.inl hx), fun _ => ?_, fun he => TaskOutcome.noConfusion he⟩
    show str "VirusTotal: таймаут." ∈ u ++ [str "VirusTotal" ++ str ": таймаут."]
    rw [show str "VirusTotal" ++ str ": таймаут." = str "VirusTotal: таймаут." by decide]
    exact List.mem_append.mpr (Or.inr (List.mem_singleton_self _))
  | raised =>
    refine ⟨fun x hx => List.mem_append.mpr (Or.inl hx), fun he => TaskOutcome.noConfusion he, fun _ => ?_⟩
    show str "VirusTotal: ошибка." ∈ u ++ [str "VirusTotal" ++ str ": ошибка."]
    rw [show str "VirusTotal" ++ str ": ошибка." = str "VirusTotal: ошибка." by decide]
    exact List.mem_append.mpr (Or.inr (List.mem_singleton_self _))

/-- A successful fetch merge only ever appends to `unavailable`, and a
timed-out or crashed fetch appends exactly its detail string. -/
theorem fetch_merge_unavailable (o : TaskOutcome FetchResult) (nrm : NormalizedURL)
    (st st' : Int × List Str × List Str × List Str)
    (h : fetch_merge o nrm st = .ok st') :
    (∀ x ∈ st.2.2.2, x ∈ st'.2.2.2) ∧
    (o = .timedOut → str "HTTP запрос: таймаут." ∈ st'.2.2.2) ∧
    (o = .raised → str "HTTP запрос: ошибка." ∈ st'.2.2.2) := by
  rcases st with ⟨s, r, t, u⟩
  cases o with
  | timedOut =>
    unfold fetch_merge _with_timeout at h
    simp only [pure, Except.pure] at h
    injection h with h
    subst h
    refine ⟨fun x hx => List.mem_append.mpr (Or.inl hx), fun _ => ?_, fun he => TaskOutcome.noConfusion he⟩
    show str "HTTP запрос: таймаут." ∈ u ++ [str "HTTP запрос" ++ str ": таймаут."]
    rw [show str "HTTP запрос" ++ str ": таймаут." = str "HTTP запрос: таймаут." by decide]
    exact List.mem_append.mpr (Or.inr (List.mem_singleton_self _))
  | raised =>
    unfold fetch_merge _with_timeout at h
    simp only [pure, Except.pure] at h
    injection h with h
    subst h
    refine ⟨fun x hx => List.mem_append.mpr (Or.inl hx), fun he => TaskOutcome.noConfusion he, fun _ => ?_⟩
    show str "HTTP запрос: ошибка." ∈ u ++ [str "HTTP запрос" ++ str ": ошибка."]
    rw [show str "HTTP запрос" ++ str ": ошибка." = str "HTTP запрос: ошибка." by decide]
    exact List.mem_append.mpr (Or.inr (List.mem_singleton_self _))
  | completed fr =>
    refine ⟨?_, fun he => TaskOutcome.noConfusion he, fun he => TaskOutcome.noConfusion he⟩
    intro x hx
    unfold fetch_merge _with_timeout at h
    simp only [Bind.bind, Except.bind, pure, Except.pure] at h
    iterate 12 (all_goals try split at h)
    all_goals first
      | exact Except.noConfusion h
      | (injection h with h
         subst h
         first
           | exact hx
           | exact List.mem_append.mpr (Or.inl hx))

/-- A failing fetch always merges successfully: the only abort the
merge can produce is `_redirect_summary` failing on a *completed*
fetch's redirect data. -/
theorem fetch_merge_ok (o : TaskOutcome FetchResult) (nrm : NormalizedURL)
    (st : Int × List Str × List Str × List Str)
    (hf : ∀ fr, o = .completed fr → fr.blocked_reason = none → fr.error = none →
        fr.redirect_chain ≠ [] →
        ∃ x, _redirect_summary fr.redirect_chain fr.final_url = .ok x) :
    ∃ st', fetch_merge o nrm st = .ok st' := by
  rcases st with ⟨s, r, t, u⟩
  cases o with
  | timedOut => exact ⟨_, rfl⟩
  | raised => exact ⟨_, rfl⟩
  | completed fr =>
    unfold fetch_merge _with_timeout
    simp only [Bind.bind, Except.bind, pure, Except.pure]
    iterate 12 (all_goals try split)
    all_goals first
      | exact ⟨_, rfl⟩
      | (exfalso
         rename_i e heq
         obtain ⟨x, hx⟩ := hf fr rfl ‹fr.blocked_reason = none› ‹fr.error = none›
           ‹fr.redirect_chain ≠ []›
         rw [hx] at heq
         exact Except.noConfusion heq)

/-- The urlscan merge only ever appends to `unavailable`. -/
theorem urlscan_merge_unavailable (o : TaskOutcome UrlscanResult) (deepcheck : Bool)
    (score : Int) (st : List Str × List Str) :
    ∀ x ∈ st.2, x ∈ (urlscan_merge o deepcheck score st).2 := by
  rcases st with ⟨i, u⟩
  intro x hx
  show x ∈ ((urlscan_merge o deepcheck score (i, u)).2)
  unfold urlscan_merge _with_timeout
  dsimp only
  cases o <;>
    (iterate 4 (all_goals try split)) <;>
    first
      | exact hx
      | exact List.mem_append.mpr (Or.inl hx)

/-- C2: per-source failure never aborts the analysis.  First conjunct:
in every completed analysis, each of the four concurrent lookups that
timed out (`asyncio.TimeoutError` escaping the 12-second
`asyncio.wait_for` of line 79) or leaked any other exception has
exactly its `label: таймаут.`/`label: ошибка.` detail string in the
report's `unavailable` list, whatever the other sources did.  Second
conjunct: the analysis can only abort through `_redirect_summary` on a
*completed* fetch's redirect data — in particular, any combination of
timeouts and unhandled errors across the lookups still yields a report.
Third conjunct: with every source timed out the report lists all four
detail strings and scores exactly the clamped heuristic-only value. -/
theorem analyze_per_source_degrades (dec : Str → Option Str) (raw : Str) (n : NormalizedURL)
    (h : normalize_url dec raw = .ok n) :
    (∀ (env : GatherEnv) (deepcheck : Bool) (rep : Report),
       analyze_url dec env raw deepcheck = .ok rep →
       (env.feeds = .timedOut → str "Публичные базы: таймаут." ∈ rep.unavailable) ∧
       (env.feeds = .raised → str "Публичные базы: ошибка." ∈ rep.unavailable) ∧
       (env.gsb = .timedOut → str "Google Safe Browsing: таймаут." ∈ rep.unavailable) ∧
       (env.gsb = .raised → str "Google Safe Browsing: ошибка." ∈ rep.unavailable) ∧
       (env.vt = .timedOut → str "VirusTotal: таймаут." ∈ rep.unavailable) ∧
       (env.vt = .raised → str "VirusTotal: ошибка." ∈ rep.unavailable) ∧
       (env.fetch = .timedOut → str "HTTP запрос: таймаут." ∈ rep.unavailable) ∧
       (env.fetch = .raised → str "HTTP запрос: ошибка." ∈ rep.unavailable)) ∧
    (∀ (env : GatherEnv) (deepcheck : Bool),
       (∀ fr, env.fetch = .completed fr → fr.blocked_reason = none → fr.error = none →
          fr.redirect_chain ≠ [] →
          ∃ x, _redirect_summary fr.redirect_chain fr.final_url = .ok x) →
       ∃ rep, analyze_url dec env raw deepcheck = .ok rep) ∧
    (∃ rep, analyze_url dec allTimeoutEnv raw false = .ok rep ∧
       str "Публичные базы: таймаут." ∈ rep.unavailable ∧
       str "Google Safe Browsing: таймаут." ∈ rep.unavailable ∧
       str "VirusTotal: таймаут." ∈ rep.unavailable ∧
       str "HTTP запрос: таймаут." ∈ rep.unavailable ∧
       rep.risk_score = max 0 (min 100 (evaluate_risk n).1)) := by
  rcases hev : evaluate_risk n with ⟨s0, r0⟩
  refine ⟨?_, ?_, ?_⟩
  · intro env dc rep hrep
    unfold analyze_url at hrep
    rw [h] at hrep
    simp only [Bind.bind, Except.bind] at hrep
    cases hc : analyze_core env n dc with
    | error e => rw [hc] at hrep; exact absurd hrep (by simp)
    | ok tup =>
      rcases tup with ⟨s5, r5, t5, i5, u5⟩
      rw [hc] at hrep
      simp only [pure, Except.pure] at hrep
      injection hrep with hrep
      subst hrep
      unfold analyze_core at hc
      simp only [Bind.bind, Except.bind, pure, Except.pure] at hc
      rw [hev] at hc
      dsimp only at hc
      rcases h3 : vt_merge env.vt (gsb_merge env.gsb (feeds_merge env.feeds (s0, r0, [], [])))
        with ⟨s3, r3, i3, u3⟩
      rw [h3] at hc
      dsimp only at hc
      cases hfm : fetch_merge env.fetch n (s3, r3, [], u3) with
      | error e => rw [hfm] at hc; exact absurd hc (by simp)
      | ok st4 =>
        rcases st4 with ⟨s4, r4, t4, u4⟩
        rw [hfm] at hc
        dsimp only at hc
        rcases h5 : urlscan_merge env.urlscan dc s4 (i3, u4) with ⟨i6, u6⟩
        rw [h5] at hc
        dsimp only at hc
        injection hc with hc
        cases hc
        have m1 := feeds_merge_unavailable env.feeds (s0, r0, [], [])
        have m2 := gsb_merge_unavailable env.gsb (feeds_merge env.feeds (s0, r0, [], []))
        have m3 := vt_merge_unavailable env.vt
          (gsb_merge env.gsb (feeds_merge env.feeds (s0, r0, [], [])))
        have m4 := fetch_merge_unavailable env.fetch n _ _ hfm
        have m5 := urlscan_merge_unavailable env.urlscan dc s5 (i3, u4)
        have push : ∀ x, x ∈ u3 → x ∈ u5 := by
          intro x hx
          have e4 := m4.1 x hx
          have e5 := m5 x e4
          rw [h5] at e5
          exact e5
        have push3 : ∀ x,
            x ∈ (vt_merge env.vt (gsb_merge env.gsb (feeds_merge env.feeds
              (s0, r0, [], [])))).2.2.2 → x ∈ u5 := by
          intro x hx
          rw [h3] at hx
          exact push x hx
        refine ⟨?_, ?_, ?_, ?_, ?_, ?_, ?_, ?_⟩
        · intro hx
          exact push3 _ (m3.1 _ (m2.1 _ (m1.2.1 hx)))
        · intro hx
          exact push3 _ (m3.1 _ (m2.1 _ (m1.2.2 hx)))
        · intro hx
          exact push3 _ (m3.1 _ (m2.2.1 hx))
        · intro hx
          exact push3 _ (m3.1 _ (m2.2.2 hx))
        · intro hx
          exact push3 _ (m3.2.1 hx)
        · intro hx
          exact push3 _ (m3.2.2 hx)
        · intro hx
          have e4 := m4.2.1 hx
          have e5 := m5 _ e4
          rw [h5] at e5
          exact e5
        · intro hx
          have e4 := m4.2.2 hx
          have e5 := m5 _ e4
          rw [h5] at e5
          exact e5
  · intro env dc hf
    rcases h3 : vt_merge env.vt (gsb_merge env.gsb (feeds_merge env.feeds (s0, r0, [], [])))
      with ⟨s3, r3, i3, u3⟩
    obtain ⟨st4, hfm⟩ := fetch_merge_ok env.fetch n (s3, r3, [], u3) hf
    rcases st4 with ⟨s4, r4, t4, u4⟩
    rcases h5 : urlscan_merge env.urlscan dc s4 (i3, u4) with ⟨i6, u6⟩
    refine ⟨composeReport n s4 r4 t4 i6 u6, ?_⟩
    unfold analyze_url
    rw [h]
    simp only [Bind.bind, Except.bind]
    unfold analyze_core
    simp only [Bind.bind, Except.bind, pure, Except.pure]
    rw [hev]
    dsimp only
    rw [h3]
    dsimp only
    rw [hfm]
    dsimp only
    rw [h5]
  · unfold analyze_url
    rw [h]
    simp only [Bind.bind, Except.bind]
    unfold analyze_core
    rw [hev]
    simp only [allTimeoutEnv, _with_timeout, feeds_merge, gsb_merge, vt_merge, fetch_merge,
      urlscan_merge]
    simp only [Bind.bind, Except.bind, pure, Except.pure]
    refine ⟨_, rfl, ?_, ?_, ?_, ?_, ?_⟩ <;>
      by_cases h70 : (70 : Int) ≤ s0 <;>
      simp only [composeReport, urlscan_merge, _with_timeout, h70, if_true, if_false,
        ite_true, ite_false] <;>
      first
        | rfl
        | decide

/-- C2 witness: the per-source theorem applied at `example.com`, with
the feeds lookup crashing amid otherwise-successful sources
(`mixedEnv`), and with every source timed out (`allTimeoutEnv`). -/
theorem analyze_per_source_degrades_witness :
    analyze_url noIdna mixedEnv (str "example.com") false = .ok mixedReport ∧
    mixedEnv.feeds = .raised ∧
    str "Публичные базы: ошибка." ∈ mixedReport.unavailable ∧
    (∃ rep, analyze_url noIdna allTimeoutEnv (str "example.com") false = .ok rep ∧
       str "Публичные базы: таймаут." ∈ rep.unavailable ∧
       str "Google Safe Browsing: таймаут." ∈ rep.unavailable ∧
       str "VirusTotal: таймаут." ∈ rep.unavailable ∧
       str "HTTP запрос: таймаут." ∈ rep.unavailable ∧
       rep.risk_score = max 0 (min 100 (evaluate_risk exampleNorm).1)) := by
  have h := analyze_per_source_degrades noIdna (str "example.com") exampleNorm (by rfl)
  have hok : analyze_url noIdna mixedEnv (str "example.com") false = .ok mixedReport := by rfl
  exact ⟨hok, rfl, (h.1 mixedEnv false mixedReport hok).2.1 rfl, h.2.2⟩

/-! ## C8: the binary distinct-host redirect rule -/

/-- C8: an empty chain contributes nothing; a non-empty chain whose
hosts (with the final URL's host) include more than one distinct host
contributes +10 with the "different hosts" reason; at least two
redirects within a single host contribute +5 with the weaker "multiple
redirects" reason. -/
theorem redirect_summary_policy (chain : List Str) (final_url : Str) :
    (chain = [] → _redirect_summary chain final_url = .ok (0, none)) ∧
    (∀ hc, redirect_host_changes chain final_url = .ok hc → chain ≠ [] →
      ((hc > 1 → _redirect_summary chain final_url =
          .ok (10, some (str "Редиректы на разные домены."))) ∧
       (hc ≤ 1 → chain.length ≥ 2 → _redirect_summary chain final_url =
          .ok (5, some (str "Несколько редиректов подряд."))))) := by
  constructor
  · intro h; simp [_redirect_summary, h]
  · intro hc hhc hne
    constructor
    · intro hgt
      simp [_redirect_summary, hne, Bind.bind, Except.bind, hhc, hgt]
    · intro hle hlen
      have : ¬ hc > 1 := by omega
      simp [_redirect_summary, hne, Bind.bind, Except.bind, hhc, this, hlen]

/-- Witness for C8: the three scenarios at concrete chains. -/
theorem redirect_summary_policy_witness :
    _redirect_summary [] (str "http://a.com/") = .ok (0, none) ∧
    _redirect_summary [str "http://a.com/x"] (str "http://b.com/") =
      .ok (10, some (str "Редиректы на разные домены.")) ∧
    _redirect_summary [str "http://a.com/x", str "http://a.com/y"] (str "http://a.com/") =
      .ok (5, some (str "Несколько редиректов подряд.")) :=
  ⟨(redirect_summary_policy [] (str "http://a.com/")).1 rfl,
   ((redirect_summary_policy _ _).2 2 (by rfl) (by simp)).1 (by omega),
   ((redirect_summary_policy _ _).2 1 (by rfl) (by simp)).2 (by omega) (by simp)⟩

/-! ## C7: the feed cache fails open -/

/-- C7: when the in-memory and on-disk caches are not fresh and the
network refresh fails, `_load_feed` returns the parsed disk contents
with `stale = true` if a disk cache exists (however old), and an empty
snapshot with `stale = true` if none does; neither path raises. -/
theorem feed_cache_fails_open (dec : Str → Option Str) (env : FeedEnv) (config : FeedConfig)
    (hm : memFresh env = false) (hd : diskFresh env = false) (hf : env.fetchResult = none) :
    (∀ txt urls domains, env.diskText = some txt →
       _parse_lines dec (pySplitlines txt) = .ok (urls, domains) →
       _load_feed dec env config =
         .ok ⟨config.name, urls, domains,
              (if metaTruthy env then env.metaTime.getD 0 else env.now), true⟩) ∧
    (env.diskText = none →
       _load_feed dec env config = .ok ⟨config.name, [], [], env.now, true⟩) ∧
    (∀ txt e, env.diskText = some txt →
       _parse_lines dec (pySplitlines txt) = .error e →
       _load_feed dec env config = .error e) := by
  unfold _load_feed
  rw [hm, hd, hf]
  simp only [Bool.false_eq_true, if_false, ite_false]
  refine ⟨?_, ?_, ?_⟩
  · intro txt urls domains hdt hp
    rw [hdt]
    simp [Bind.bind, Except.bind, hp]
  · intro hdt; rw [hdt]
  · intro txt e hdt hp
    rw [hdt]
    simp [Bind.bind, Except.bind, hp]

/-- Witness for C7: a cold cache with a one-entry disk file, and a cold
cache with no disk file. -/
theorem feed_cache_fails_open_witness :
    _load_feed noIdna staleDiskFeedEnv ⟨str "URLhaus", str "https://urlhaus.abuse.ch/downloads/text/"⟩ =
      .ok ⟨str "URLhaus", [str "http://evil.example/mal"], [str "evil.example"], 1000000, true⟩ ∧
    _load_feed noIdna emptyFeedEnv ⟨str "URLhaus", str "https://urlhaus.abuse.ch/downloads/text/"⟩ =
      .ok ⟨str "URLhaus", [], [], 1000000, true⟩ :=
  ⟨(feed_cache_fails_open noIdna staleDiskFeedEnv _ rfl rfl rfl).1 _ _ _ rfl (by rfl),
   (feed_cache_fails_open noIdna emptyFeedEnv _ rfl rfl rfl).2.1 rfl⟩

/-- C7 counterexample: the fail-open fallback can itself raise.  With
cold caches and a failed refresh, a disk cache whose line is
`http://evil.example:99999/mal` makes the fallback re-parse call
`normalize_url`, whose `parts.port` raises `ValueError("Port out of
range 0-65535")` — and line 146 of `threat_feeds.py` runs inside the
`except` branch with no guard, so `_load_feed` raises instead of
returning the parsed disk contents. -/
theorem feed_cache_raises :
    memFresh badPortFeedEnv = false ∧ diskFresh badPortFeedEnv = false ∧
    badPortFeedEnv.fetchResult = none ∧ badPortFeedEnv.diskText.isSome = true ∧
    _load_feed noIdna badPortFeedEnv
        ⟨str "URLhaus", str "https://urlhaus.abuse.ch/downloads/text/"⟩ =
      .error (str "Port out of range 0-65535") :=
  ⟨rfl, rfl, rfl, rfl, by rfl⟩

/-! ## Lemmas about the fetcher -/

theorem checkBracketedHost_error (b e : Str) (h : checkBracketedHost b = .error e) :
    e = str "IPvFuture address is invalid" ∨
    e = str "An IPv4 address cannot be in brackets" ∨
    e = str "does not appear to be an IPv4 or IPv6 address" := by
  have key : ∀ (c : Prop) (inst : Decidable c) (a : Unit) (m e' : Str),
      (if c then Except.ok a else Except.error m) = Except.error e' → e' = m := by
    intro c inst a m e'
    split <;> intro hh <;> simp_all
  unfold checkBracketedHost at h
  split at h
  · split at h
    · exact Or.inl (key _ _ _ _ _ h)
    · simp only [Except.error.injEq] at h; exact Or.inl h.symm
  · split at h <;> simp_all

theorem splitNetlocChecked_error (u2 e : Str) (h : splitNetlocChecked u2 = .error e) :
    e = str "Invalid IPv6 URL" ∨ e = str "IPvFuture address is invalid" ∨
    e = str "An IPv4 address cannot be in brackets" ∨
    e = str "does not appear to be an IPv4 or IPv6 address" := by
  unfold splitNetlocChecked at h
  split at h
  · dsimp only at h
    split at h
    · simp only [Except.error.injEq] at h; exact Or.inl h.symm
    · split at h
      · split at h
        · rename_i heq
          simp only [Except.error.injEq] at h
          subst h
          exact Or.inr (checkBracketedHost_error _ _ heq)
        · simp at h
      · simp at h
  · simp at h

/-- The only `ValueError`s `urlsplit` raises are the bracket/bracketed-
host ones. -/
theorem urlsplit_error_strings (u e : Str) (h : urlsplit u = .error e) :
    e = str "Invalid IPv6 URL" ∨ e = str "IPvFuture address is invalid" ∨
    e = str "An IPv4 address cannot be in brackets" ∨
    e = str "does not appear to be an IPv4 or IPv6 address" := by
  unfold urlsplit at h
  dsimp only at h
  rcases hss : splitScheme (removeUnsafeBytes u) with ⟨sch, u2⟩
  rw [hss] at h
  split at h
  · rename_i heq
    simp only [Except.error.injEq] at h
    subst h
    exact splitNetlocChecked_error _ _ heq
  · simp at h

/-- Outcome exclusivity and the hop bound, as a loop invariant: along
the loop, `chain.length + fuel` is constant. -/
theorem fetch_steps_ok_inv (env : FetchEnv) :
    ∀ fuel current chain trace fr tr, 1 ≤ fuel →
      fetch_steps env fuel current chain trace = (.ok fr, tr) →
      (¬ (fr.blocked_reason ≠ none ∧ fr.error ≠ none)) ∧
      fr.redirect_chain.length ≤ chain.length + fuel ∧
      (fr.redirect_chain.length = chain.length + fuel →
        fr.error = some (str "Слишком много редиректов.")) := by
  intro fuel
  induction fuel with
  | zero => intro _ _ _ _ _ h1 _; omega
  | succ f ih =>
    intro current chain trace fr tr _ h
    unfold fetch_steps at h
    iterate 12 (all_goals try split at h)
    all_goals try (rw [ite_eq_iff] at h; rcases h with ⟨hst, h⟩ | ⟨hst, h⟩)
    all_goals try dsimp only at h
    all_goals
      first
      | (obtain ⟨c1, c2, c3⟩ := ih _ _ _ _ _ (by omega) h
         simp only [List.length_append, List.length_cons, List.length_nil] at c2 c3
         refine ⟨c1, by omega, ?_⟩
         intro hlen
         exact c3 (by omega))
      | (rw [Prod.mk.injEq] at h
         have h1 := h.1
         first
         | exact Except.noConfusion h1
         | (injection h1 with h1
            subst h1
            refine ⟨by simp,
              by (try simp only [List.length_append, List.length_cons, List.length_nil]); omega,
              ?_⟩
            intro hlen
            first
              | rfl
              | (exfalso
                 try simp only [List.length_append, List.length_cons, List.length_nil] at hlen
                 omega)))

/-- A `ValueError` escaping `safe_fetch` is a URL-parsing error, never
a network outcome. -/
theorem fetch_steps_err_inv (env : FetchEnv) :
    ∀ fuel current chain trace e tr,
      fetch_steps env fuel current chain trace = (.error e, tr) →
      e = str "Invalid IPv6 URL" ∨ e = str "IPvFuture address is invalid" ∨
      e = str "An IPv4 address cannot be in brackets" ∨
      e = str "does not appear to be an IPv4 or IPv6 address" := by
  intro fuel
  induction fuel with
  | zero =>
    intro current chain trace e tr h
    unfold fetch_steps at h
    exact absurd (congrArg Prod.fst h) (by simp)
  | succ f ih =>
    intro current chain trace e tr h
    unfold fetch_steps at h
    iterate 12 (all_goals try split at h)
    all_goals try (rw [ite_eq_iff] at h; rcases h with ⟨hst, h⟩ | ⟨hst, h⟩)
    all_goals try dsimp only at h
    all_goals
      first
      | exact ih _ _ _ _ _ h
      | (rw [Prod.mk.injEq] at h
         have h1 := h.1
         first
         | exact Except.noConfusion h1
         | (injection h1 with h1
            subst h1
            rename_i heq
            exact urlsplit_error_strings _ _ heq))

/-- `_host_is_allowed` answers `(True, None)` exactly when the host is
non-empty, resolution returned addresses, and none is forbidden. -/
theorem host_is_allowed_true (env : FetchEnv) (host : Str) (snd : Option Str)
    (h : _host_is_allowed env host = (true, snd)) :
    snd = none ∧ host ≠ [] ∧ _resolve_host env host ≠ [] ∧
    ∀ ip ∈ _resolve_host env host, is_forbidden_ip ip = false := by
  unfold _host_is_allowed at h
  dsimp only at h
  split at h
  · simp at h
  · split at h
    · simp at h
    · split at h
      · simp at h
      · rw [Prod.mk.injEq] at h
        refine ⟨h.2.symm, by simpa using (‹¬ host = []› : ¬ host = []), ?_, ?_⟩
        · simpa using (‹¬ _resolve_host env host = []› : ¬ _resolve_host env host = [])
        · intro ip hip
          have := List.find?_eq_none.mp
            (‹List.find? (fun ip => is_forbidden_ip ip) (_resolve_host env host) = none›) ip hip
          simpa using this

/-- `_host_is_allowed` never refuses without a reason. -/
theorem host_is_allowed_false (env : FetchEnv) (host : Str) (reason : Option Str)
    (h : _host_is_allowed env host = (false, reason)) : reason ≠ none := by
  unfold _host_is_allowed at h
  dsimp only at h
  split at h
  · rw [Prod.mk.injEq] at h; rw [← h.2]; simp
  · split at h
    · rw [Prod.mk.injEq] at h; rw [← h.2]; simp
    · split at h
      · rw [Prod.mk.injEq] at h; rw [← h.2]; simp
      · simp at h

/-- Every URL a GET is issued for passed the scheme and SSRF gates of
its own hop. -/
theorem fetch_steps_trace_inv (env : FetchEnv) :
    ∀ fuel current chain trace,
      (∀ u ∈ trace, allowed_get_target env u) →
      ∀ u ∈ (fetch_steps env fuel current chain trace).2, allowed_get_target env u := by
  intro fuel
  induction fuel with
  | zero => intro current chain trace hpre; exact hpre
  | succ f ih =>
    intro current chain trace hpre
    unfold fetch_steps
    cases hsp : urlsplit current with
    | error e => exact hpre
    | ok parts =>
      dsimp only
      by_cases hsc : ¬ (parts.scheme = str "http" ∨ parts.scheme = str "https")
      · rw [if_pos hsc]
        exact hpre
      · rw [if_neg hsc]
        rcases hha : _host_is_allowed env ((hostnameOf parts.netloc).getD []) with ⟨allowed, reason⟩
        cases allowed with
        | false => exact hpre
        | true =>
          dsimp only
          have hsnd := (host_is_allowed_true env _ _ hha).1
          subst hsnd
          have hext : ∀ u ∈ trace ++ [current], allowed_get_target env u := by
            intro u hu
            rcases List.mem_append.mp hu with hu | hu
            · exact hpre u hu
            · rcases List.mem_singleton.mp hu with rfl
              exact ⟨parts, hsp, not_not.mp hsc, hha⟩
          cases hh : env.http current with
          | timeout => exact hext
          | clientError msg => exact hext
          | resp r =>
            dsimp only
            by_cases hst : r.status = 301 ∨ r.status = 302 ∨ r.status = 303 ∨
                r.status = 307 ∨ r.status = 308
            · rw [if_pos hst]
              cases hloc : headerGet r.headers (str "Location") with
              | none => exact hext
              | some location =>
                dsimp only
                by_cases hf : f = 0
                · rw [if_pos hf]; exact hext
                · rw [if_neg hf]
                  exact ih _ _ _ hext
            · rw [if_neg hst]
              exact hext

/-! ## C5: the fetcher's outcome contract -/

/-- C5: for every environment and URL, a returned `FetchResult` has
exactly one terminal outcome (success, blocked, or error — never both
blocked and error), its chain never exceeds `MAX_REDIRECTS + 1`
entries, and a chain that reaches the bound carries the
"too many redirects" error; a `ValueError` escaping the function is a
URL-parsing error, so network failure never raises. -/
theorem safe_fetch_contract (env : FetchEnv) (url : Str) :
    (∀ fr tr, safe_fetch env url = (.ok fr, tr) →
       ((fr.blocked_reason = none ∧ fr.error = none) ∨
        (fr.blocked_reason ≠ none ∧ fr.error = none) ∨
        (fr.blocked_reason = none ∧ fr.error ≠ none)) ∧
       fr.redirect_chain.length ≤ MAX_REDIRECTS + 1 ∧
       (fr.redirect_chain.length = MAX_REDIRECTS + 1 →
         fr.error = some (str "Слишком много редиректов."))) ∧
    (∀ e tr, safe_fetch env url = (.error e, tr) →
       (e = str "Invalid IPv6 URL" ∨ e = str "IPvFuture address is invalid" ∨
        e = str "An IPv4 address cannot be in brackets" ∨
        e = str "does not appear to be an IPv4 or IPv6 address")) := by
  constructor
  · intro fr tr h
    obtain ⟨c1, c2, c3⟩ :=
      fetch_steps_ok_inv env (MAX_REDIRECTS + 1) url [] [] fr tr (by simp [MAX_REDIRECTS]) h
    simp only [List.length_nil, Nat.zero_add] at c2 c3
    refine ⟨?_, c2, c3⟩
    rcases hb : fr.blocked_reason with _ | b <;> rcases he : fr.error with _ | e
    · exact Or.inl ⟨rfl, rfl⟩
    · exact Or.inr (Or.inr ⟨rfl, by simp⟩)
    · exact Or.inr (Or.inl ⟨by simp, rfl⟩)
    · exact absurd ⟨by simp [hb], by simp [he]⟩ c1
  · intro e tr h
    exact fetch_steps_err_inv env (MAX_REDIRECTS + 1) url [] [] e tr h

/-- Witness for C5: the always-redirecting environment exhausts the
hop bound. -/
theorem safe_fetch_contract_witness :
    ((alwaysRedirectResult.blocked_reason = none ∧ alwaysRedirectResult.error = none) ∨
     (alwaysRedirectResult.blocked_reason ≠ none ∧ alwaysRedirectResult.error = none) ∨
     (alwaysRedirectResult.blocked_reason = none ∧ alwaysRedirectResult.error ≠ none)) ∧
    alwaysRedirectResult.redirect_chain.length ≤ MAX_REDIRECTS + 1 ∧
    (alwaysRedirectResult.redirect_chain.length = MAX_REDIRECTS + 1 →
      alwaysRedirectResult.error = some (str "Слишком много редиректов.")) :=
  (safe_fetch_contract alwaysRedirectEnv (str "http://ok.com/")).1 alwaysRedirectResult
    (safe_fetch alwaysRedirectEnv (str "http://ok.com/")).2 (by rfl)

/-! ## C1: the SSRF gate runs on every hop -/

/-- C1: (i) every URL `safe_fetch` actually issues a GET for — on any
hop — splits into an http(s) URL whose non-empty host resolved to a
non-empty address list containing no forbidden address; (ii) a hop
whose host check refuses terminates the fetch at that hop with the
non-null `blocked_reason` and issues no GET (the trace is unchanged);
(iii) `is_forbidden_ip` holds for 127.0.0.1, 10.0.0.5, 192.168.1.10
and ::1, and not for 8.8.8.8. -/
theorem ssrf_guard_every_hop :
    (∀ (env : FetchEnv) (url u : Str), u ∈ (safe_fetch env url).2 →
       ∃ parts, urlsplit u = .ok parts ∧
         (parts.scheme = str "http" ∨ parts.scheme = str "https") ∧
         (hostnameOf parts.netloc).getD [] ≠ [] ∧
         _resolve_host env ((hostnameOf parts.netloc).getD []) ≠ [] ∧
         ∀ ip ∈ _resolve_host env ((hostnameOf parts.netloc).getD []),
           is_forbidden_ip ip = false) ∧
    (∀ (env : FetchEnv) (fuel : Nat) (current : Str) (chain trace : List Str)
       (parts : SplitResult) (reason : Option Str),
       urlsplit current = .ok parts →
       (parts.scheme = str "http" ∨ parts.scheme = str "https") →
       _host_is_allowed env ((hostnameOf parts.netloc).getD []) = (false, reason) →
       fetch_steps env (fuel + 1) current chain trace =
         (.ok ⟨current, none, [], none, none, chain, reason, none⟩, trace) ∧ reason ≠ none) ∧
    is_forbidden_ip (str "127.0.0.1") = true ∧
    is_forbidden_ip (str "10.0.0.5") = true ∧
    is_forbidden_ip (str "192.168.1.10") = true ∧
    is_forbidden_ip (str "::1") = true ∧
    is_forbidden_ip (str "8.8.8.8") = false := by
  refine ⟨?_, ?_, by decide, by decide, by decide, by decide, by decide⟩
  · intro env url u hu
    obtain ⟨parts, hsp, hsc, hha⟩ :=
      fetch_steps_trace_inv env (MAX_REDIRECTS + 1) url [] [] (by simp) u hu
    obtain ⟨_, h1, h2, h3⟩ := host_is_allowed_true env _ _ hha
    exact ⟨parts, hsp, hsc, h1, h2, h3⟩
  · intro env fuel current chain trace parts reason hsp hsc hha
    refine ⟨?_, host_is_allowed_false env _ _ hha⟩
    unfold fetch_steps
    rw [hsp]
    dsimp only
    rw [if_neg (not_not_intro hsc), hha]

/-- Witness for C1: under `redirectToInternalEnv` the only GET goes to
`ok.com`, whose addresses are allowed, and the `internal.host` hop is
blocked without a GET. -/
theorem ssrf_guard_every_hop_witness :
    (∃ parts, urlsplit (str "http://ok.com/") = .ok parts ∧
       (parts.scheme = str "http" ∨ parts.scheme = str "https") ∧
       (hostnameOf parts.netloc).getD [] ≠ [] ∧
       _resolve_host redirectToInternalEnv ((hostnameOf parts.netloc).getD []) ≠ [] ∧
       ∀ ip ∈ _resolve_host redirectToInternalEnv ((hostnameOf parts.netloc).getD []),
         is_forbidden_ip ip = false) ∧
    (fetch_steps redirectToInternalEnv 5 (str "http://internal.host/") [str "http://ok.com/"]
        [str "http://ok.com/"] =
      (.ok ⟨str "http://internal.host/", none, [], none, none, [str "http://ok.com/"],
            some (str "Домен резолвится в приватный адрес 10.0.0.5."), none⟩,
       [str "http://ok.com/"]) ∧
     (some (str "Домен резолвится в приватный адрес 10.0.0.5.") : Option Str) ≠ none) :=
  ⟨ssrf_guard_every_hop.1 redirectToInternalEnv (str "http://ok.com/") (str "http://ok.com/")
     (by decide),
   ssrf_guard_every_hop.2.1 redirectToInternalEnv 4 (str "http://internal.host/")
     [str "http://ok.com/"] [str "http://ok.com/"]
     ⟨str "http", str "internal.host", str "/", [], []⟩
     (some (str "Домен резолвится в приватный адрес 10.0.0.5.")) (by rfl) (by simp) (by rfl)⟩

/-! ## Character and list toolkit for the normalization claims -/

theorem toNat_ofNat_valid (n : Nat) (h : n < 0xd800) : (Char.ofNat n).toNat = n := by
  have hv : n.isValidChar := Or.inl h
  simp only [Char.ofNat, hv, dite_true, Char.toNat]
  rfl

/-- `Char.toLower` either fixes a character or yields a lower-case
ASCII letter. -/
theorem toLower_cases (c : Char) :
    Char.toLower c = c ∨ (97 ≤ (Char.toLower c).toNat ∧ (Char.toLower c).toNat ≤ 122) := by
  unfold Char.toLower
  dsimp only
  split
  · right
    rename_i h
    rw [toNat_ofNat_valid _ (by omega)]
    omega
  · left; rfl

theorem toLower_fix_of_lower (d : Char) (h : 97 ≤ d.toNat ∧ d.toNat ≤ 122) :
    Char.toLower d = d := by
  unfold Char.toLower
  dsimp only
  rw [if_neg (by omega)]

theorem toLower_toLower (c : Char) :
    Char.toLower (Char.toLower c) = Char.toLower c := by
  rcases toLower_cases c with h | h
  · rw [h, h]
  · exact toLower_fix_of_lower _ h

/-- `Char.toLower` cannot produce a character outside `a`–`z` that the
input was not already. -/
theorem toLower_ne (c d : Char) (hd : d.toNat < 97 ∨ 122 < d.toNat) (h : c ≠ d) :
    Char.toLower c ≠ d := by
  intro heq
  rcases toLower_cases c with h1 | h1
  · exact h (h1 ▸ heq)
  · rw [heq] at h1
    omega

theorem pyLower_pyLower (s : Str) : pyLower (pyLower s) = pyLower s := by
  unfold pyLower
  rw [List.map_map]
  exact List.map_congr_left (fun c _ => toLower_toLower c)

theorem mem_pyLower (s : Str) (x : Char) (h : x ∈ pyLower s) :
    ∃ y ∈ s, x = Char.toLower y := by
  obtain ⟨y, hy, rfl⟩ := List.mem_map.mp h
  exact ⟨y, hy, rfl⟩

theorem mem_of_mem_takeWhile {p : Char → Bool} {l : Str} {a : Char}
    (h : a ∈ l.takeWhile p) : a ∈ l := by
  induction l with
  | nil => simp at h
  | cons c cs ih =>
    rw [List.takeWhile_cons] at h
    by_cases hc : p c
    · rw [if_pos hc] at h
      rcases List.mem_cons.mp h with rfl | h
      · exact List.mem_cons_self _ _
      · exact List.mem_cons_of_mem _ (ih h)
    · rw [if_neg hc] at h
      simp at h

theorem pred_of_mem_takeWhile {p : Char → Bool} {l : Str} {a : Char}
    (h : a ∈ l.takeWhile p) : p a = true := by
  induction l with
  | nil => simp at h
  | cons c cs ih =>
    rw [List.takeWhile_cons] at h
    by_cases hc : p c
    · rw [if_pos hc] at h
      rcases List.mem_cons.mp h with rfl | h
      · exact hc
      · exact ih h
    · rw [if_neg hc] at h
      simp at h

theorem takeWhile_all {p : Char → Bool} {l : Str} (h : ∀ x ∈ l, p x = true) :
    l.takeWhile p = l := by
  induction l with
  | nil => rfl
  | cons c cs ih =>
    rw [List.takeWhile_cons, if_pos (h c (List.mem_cons_self _ _))]
    exact congrArg (c :: ·) (ih fun x hx => h x (List.mem_cons_of_mem _ hx))

theorem dropWhile_all {p : Char → Bool} {l : Str} (h : ∀ x ∈ l, p x = true) :
    l.dropWhile p = [] := by
  induction l with
  | nil => rfl
  | cons c cs ih =>
    rw [List.dropWhile_cons, if_pos (h c (List.mem_cons_self _ _))]
    exact ih fun x hx => h x (List.mem_cons_of_mem _ hx)

theorem takeWhile_append_stop {p : Char → Bool} {a : Str} {b0 : Char} {bs : Str}
    (ha : ∀ x ∈ a, p x = true) (hb : p b0 = false) :
    (a ++ b0 :: bs).takeWhile p = a ∧ (a ++ b0 :: bs).dropWhile p = b0 :: bs := by
  induction a with
  | nil => simp [List.takeWhile_cons, List.dropWhile_cons, hb]
  | cons c cs ih =>
    have hc := ha c (List.mem_cons_self _ _)
    have ihh := ih fun x hx => ha x (List.mem_cons_of_mem _ hx)
    constructor
    · rw [List.cons_append, List.takeWhile_cons, if_pos hc]
      exact congrArg (c :: ·) ihh.1
    · rw [List.cons_append, List.dropWhile_cons, if_pos hc]
      exact ihh.2

theorem dropWhile_head_false {p : Char → Bool} {l r : Str} {c : Char}
    (h : l.dropWhile p = c :: r) : p c = false := by
  induction l with
  | nil => simp at h
  | cons x xs ih =>
    rw [List.dropWhile_cons] at h
    by_cases hx : p x
    · rw [if_pos hx] at h
      exact ih h
    · rw [if_neg hx] at h
      cases h
      simpa using hx

theorem splitOnFirst_none {c : Char} {s : Str} (h : c ∉ s) : splitOnFirst c s = none := by
  induction s with
  | nil => rfl
  | cons x xs ih =>
    unfold splitOnFirst
    rw [if_neg (by rintro rfl; exact h (List.mem_cons_self _ _))]
    rw [ih (fun hx => h (List.mem_cons_of_mem _ hx))]
    rfl

theorem splitOnFirst_eq_none {c : Char} {s : Str} (h : splitOnFirst c s = none) : c ∉ s := by
  induction s with
  | nil => simp
  | cons x xs ih =>
    unfold splitOnFirst at h
    by_cases hx : x = c
    · rw [if_pos hx] at h; simp at h
    · rw [if_neg hx] at h
      intro hm
      rcases List.mem_cons.mp hm with rfl | hm
      · exact hx rfl
      · exact ih (by cases hs : splitOnFirst c xs <;> simp [hs] at h ⊢) hm

theorem splitOnFirst_append {c : Char} {a b : Str} (h : c ∉ a) :
    splitOnFirst c (a ++ c :: b) = some (a, b) := by
  induction a with
  | nil => simp [splitOnFirst]
  | cons x xs ih =>
    have hx : ¬ x = c := by rintro rfl; exact h (List.mem_cons_self _ _)
    simp only [List.cons_append, splitOnFirst, if_neg hx]
    rw [List.append_eq, ih (fun hm => h (List.mem_cons_of_mem _ hm))]
    rfl

theorem splitOnFirst_some {c : Char} {s a b : Str} (h : splitOnFirst c s = some (a, b)) :
    s = a ++ c :: b ∧ c ∉ a := by
  induction s generalizing a with
  | nil => simp [splitOnFirst] at h
  | cons x xs ih =>
    unfold splitOnFirst at h
    by_cases hx : x = c
    · rw [if_pos hx] at h
      simp at h
      obtain ⟨rfl, rfl⟩ := h
      subst hx
      exact ⟨rfl, by simp⟩
    · rw [if_neg hx] at h
      cases ha : splitOnFirst c xs with
      | none => rw [ha] at h; simp at h
      | some p =>
        rw [ha] at h
        rcases p with ⟨a', b'⟩
        simp at h
        obtain ⟨rfl, rfl⟩ := h
        obtain ⟨hxs, hna⟩ := ih ha
        refine ⟨by rw [List.cons_append, hxs], ?_⟩
        intro hm
        rcases List.mem_cons.mp hm with rfl | hm
        · exact hx rfl
        · exact hna hm

theorem leadsWith_append (p t : Str) : leadsWith p (p ++ t) = true := by
  induction p with
  | nil => rfl
  | cons c cs ih => simpa [leadsWith] using ih

theorem leadsWith_iff (p s : Str) : leadsWith p s = true ↔ ∃ t, s = p ++ t := by
  constructor
  · intro h
    induction p generalizing s with
    | nil => exact ⟨s, rfl⟩
    | cons c cs ih =>
      cases s with
      | nil => simp [leadsWith] at h
      | cons x xs =>
        simp only [leadsWith, Bool.and_eq_true, decide_eq_true_eq] at h
        obtain ⟨rfl, h⟩ := h
        obtain ⟨t, rfl⟩ := ih _ h
        exact ⟨t, rfl⟩
  · rintro ⟨t, rfl⟩
    exact leadsWith_append p t

theorem hasSub_middle (p a b : Str) : hasSub p (a ++ (p ++ b)) = true := by
  induction a with
  | nil =>
    rw [List.nil_append]
    cases hpb : p ++ b with
    | nil =>
      have hp : p = [] := by cases p <;> simp_all
      subst hp
      simp [hasSub]
    | cons x xs =>
      unfold hasSub
      rw [← hpb, leadsWith_append]
      simp
  | cons c cs ih =>
    rw [List.cons_append]
    unfold hasSub
    rw [ih]
    simp

theorem hasSub_single {c : Char} {s : Str} : hasSub [c] s = true ↔ c ∈ s := by
  induction s with
  | nil => simp [hasSub]
  | cons x xs ih =>
    unfold hasSub
    simp only [Bool.or_eq_true, ih]
    constructor
    · rintro (h | h)
      · simp only [leadsWith, Bool.and_eq_true, decide_eq_true_eq] at h
        exact List.mem_cons.mpr (Or.inl h.1)
      · exact List.mem_cons_of_mem _ h
    · intro h
      rcases List.mem_cons.mp h with rfl | h
      · left; simp [leadsWith]
      · right; exact h

theorem afterLastChar_of_not_mem {c : Char} {s : Str} (h : c ∉ s) :
    afterLastChar c s = s := by
  unfold afterLastChar
  rw [takeWhile_all, List.reverse_reverse]
  intro x hx
  simp only [decide_eq_true_eq]
  rintro rfl
  exact h (List.mem_reverse.mp hx)

theorem partitionChar_not_mem {c : Char} {s : Str} (h : c ∉ s) :
    partitionChar c s = (s, false, []) := by
  unfold partitionChar
  rw [splitOnFirst_none h]

theorem partitionChar_append {c : Char} {a b : Str} (h : c ∉ a) :
    partitionChar c (a ++ c :: b) = (a, true, b) := by
  unfold partitionChar
  rw [splitOnFirst_append h]

theorem removeUnsafeBytes_id {s : Str}
    (h : ∀ x ∈ s, x ≠ '\t' ∧ x ≠ '\r' ∧ x ≠ '\n') : removeUnsafeBytes s = s := by
  unfold removeUnsafeBytes
  rw [List.filter_eq_self]
  intro x hx
  have := h x hx
  simp [this.1, this.2.1, this.2.2]


/-! Character-class facts used by the normalization proofs. -/

theorem isDigit_iff (c : Char) : c.isDigit = true ↔ (48 ≤ c.toNat ∧ c.toNat ≤ 57) := by
  simp [Char.isDigit, Char.le_def, Char.toNat]
  exact Iff.rfl

theorem isAlpha_iff (c : Char) :
    c.isAlpha = true ↔ (65 ≤ c.toNat ∧ c.toNat ≤ 90) ∨ (97 ≤ c.toNat ∧ c.toNat ≤ 122) := by
  simp [Char.isAlpha, Char.isUpper, Char.isLower, Char.le_def, Char.toNat]
  exact Iff.rfl

theorem ne_of_toNat_ne {c d : Char} (h : c.toNat ≠ d.toNat) : c ≠ d :=
  fun he => h (congrArg Char.toNat he)

theorem toLower_isAlpha {c : Char} (h : c.isAlpha = true) :
    (Char.toLower c).isAlpha = true := by
  rcases toLower_cases c with h1 | h1
  · rwa [h1]
  · exact (isAlpha_iff _).mpr (Or.inr h1)

theorem schemeChar_toNat (c : Char) (h : schemeChar c = true) :
    (65 ≤ c.toNat ∧ c.toNat ≤ 90) ∨ (97 ≤ c.toNat ∧ c.toNat ≤ 122) ∨
    (48 ≤ c.toNat ∧ c.toNat ≤ 57) ∨ c.toNat = 43 ∨ c.toNat = 45 ∨ c.toNat = 46 := by
  unfold schemeChar at h
  simp only [decide_eq_true_eq] at h
  rcases h with h | h | h | h | h
  · rcases (isAlpha_iff c).mp h with h1 | h1
    · exact Or.inl h1
    · exact Or.inr (Or.inl h1)
  · exact Or.inr (Or.inr (Or.inl ((isDigit_iff c).mp h)))
  · subst h; exact Or.inr (Or.inr (Or.inr (Or.inl rfl)))
  · subst h; exact Or.inr (Or.inr (Or.inr (Or.inr (Or.inl rfl))))
  · subst h; exact Or.inr (Or.inr (Or.inr (Or.inr (Or.inr rfl))))

theorem schemeChar_toLower {c : Char} (h : schemeChar c = true) :
    schemeChar (Char.toLower c) = true := by
  rcases toLower_cases c with h1 | h1
  · rwa [h1]
  · unfold schemeChar
    simp only [decide_eq_true_eq]
    exact Or.inl ((isAlpha_iff _).mpr (Or.inr h1))

theorem digitsToNat_append (xs : Str) (c : Char) :
    digitsToNat (xs ++ [c]) = digitsToNat xs * 10 + (c.toNat - 48) := by
  unfold digitsToNat
  rw [List.foldl_append]
  rfl

theorem ofNat_digit_isDigit (r : Nat) (h : r < 10) :
    (Char.ofNat (48 + r)).isDigit = true := by
  interval_cases r <;> decide

theorem natDigitsRevGo_spec (fuel : Nat) : ∀ n : Nat, n ≤ fuel →
    digitsToNat (natDigitsRevGo fuel n).reverse = n ∧
    ∀ c ∈ natDigitsRevGo fuel n, c.isDigit = true := by
  induction fuel with
  | zero =>
    intro n hn
    have : n = 0 := Nat.le_zero.mp hn
    subst this
    exact ⟨rfl, by simp [natDigitsRevGo]⟩
  | succ f ih =>
    intro n hn
    match n with
    | 0 => exact ⟨rfl, by simp [natDigitsRevGo]⟩
    | m + 1 =>
      have hdiv : (m + 1) / 10 ≤ f := by omega
      obtain ⟨ih1, ih2⟩ := ih _ hdiv
      have hofnat : (Char.ofNat (48 + (m + 1) % 10)).toNat = 48 + (m + 1) % 10 :=
        toNat_ofNat_valid _ (by omega)
      constructor
      · show digitsToNat ((Char.ofNat (48 + (m + 1) % 10) ::
            natDigitsRevGo f ((m + 1) / 10)).reverse) = m + 1
        rw [List.reverse_cons, digitsToNat_append, ih1, hofnat]
        omega
      · intro c hc
        rcases List.mem_cons.mp hc with rfl | hc
        · exact ofNat_digit_isDigit _ (by omega)
        · exact ih2 c hc

theorem digitsToNat_natToDigits (n : Nat) : digitsToNat (natToDigits n) = n := by
  unfold natToDigits
  by_cases h : n = 0
  · subst h; rfl
  · rw [if_neg h]
    exact (natDigitsRevGo_spec n n (Nat.le_refl n)).1

theorem natToDigits_all_digit (n : Nat) : ∀ c ∈ natToDigits n, c.isDigit = true := by
  unfold natToDigits
  by_cases h : n = 0
  · subst h; intro c hc; simp at hc; subst hc; decide
  · rw [if_neg h]
    intro c hc
    exact (natDigitsRevGo_spec n n (Nat.le_refl n)).2 c (List.mem_reverse.mp hc)

theorem natToDigits_ne_nil (n : Nat) : natToDigits n ≠ [] := by
  unfold natToDigits
  by_cases h : n = 0
  · subst h; simp
  · rw [if_neg h]
    obtain ⟨m, rfl⟩ := Nat.exists_eq_succ_of_ne_zero h
    show ((natDigitsRevGo (m + 1) (m + 1)).reverse ≠ [])
    unfold natDigitsRevGo
    simp

theorem mem_of_mem_dropWhile {p : Char → Bool} {l : Str} {a : Char}
    (h : a ∈ l.dropWhile p) : a ∈ l := by
  induction l with
  | nil => simp at h
  | cons c cs ih =>
    rw [List.dropWhile_cons] at h
    by_cases hc : p c
    · rw [if_pos hc] at h
      exact List.mem_cons_of_mem _ (ih h)
    · rw [if_neg hc] at h
      exact h

theorem mem_pyStrip {s : Str} {c : Char} (h : c ∈ pyStrip s) : c ∈ s := by
  unfold pyStrip at h
  rw [List.mem_reverse] at h
  have h1 := mem_of_mem_dropWhile h
  rw [List.mem_reverse] at h1
  exact mem_of_mem_dropWhile h1

theorem mem_afterLastChar {ch c : Char} {s : Str} (h : c ∈ afterLastChar ch s) :
    c ∈ s ∧ c ≠ ch := by
  unfold afterLastChar at h
  rw [List.mem_reverse] at h
  refine ⟨List.mem_reverse.mp (mem_of_mem_takeWhile h), ?_⟩
  have hp := pred_of_mem_takeWhile h
  simpa using hp

theorem mem_partitionChar_fst {ch c : Char} {s : Str}
    (h : c ∈ (partitionChar ch s).1) : c ∈ s ∧ c ≠ ch := by
  unfold partitionChar at h
  cases hs : splitOnFirst ch s with
  | none => rw [hs] at h; exact ⟨h, fun he => (splitOnFirst_eq_none hs) (he ▸ h)⟩
  | some p =>
    rcases p with ⟨a, b⟩
    rw [hs] at h
    obtain ⟨hsplit, hna⟩ := splitOnFirst_some hs
    subst hsplit
    exact ⟨List.mem_append.mpr (Or.inl h), fun he => hna (he ▸ h)⟩

theorem mem_partitionChar_trd {ch c : Char} {s : Str}
    (h : c ∈ (partitionChar ch s).2.2) : c ∈ s := by
  unfold partitionChar at h
  cases hs : splitOnFirst ch s with
  | none => rw [hs] at h; simp at h
  | some p =>
    rcases p with ⟨a, b⟩
    rw [hs] at h
    obtain ⟨hsplit, -⟩ := splitOnFirst_some hs
    subst hsplit
    exact List.mem_append.mpr (Or.inr (List.mem_cons_of_mem _ h))

theorem mem_hostinfo_fst {netloc : Str} {c : Char}
    (h : c ∈ (hostinfoOf netloc).1) : c ∈ netloc ∧ c ≠ '@' := by
  rcases hpb : partitionChar '[' (afterLastChar '@' netloc) with ⟨pre, br, bracketed⟩
  simp only [hostinfoOf, hpb] at h
  by_cases hbr : br = true
  · subst hbr
    rw [if_pos rfl] at h
    rcases hpc : partitionChar ']' bracketed with ⟨hostname, b2, portRest⟩
    rw [hpc] at h
    dsimp only at h
    have h1 : c ∈ (partitionChar ']' bracketed).1 := by rw [hpc]; exact h
    have h2 : c ∈ (partitionChar '[' (afterLastChar '@' netloc)).2.2 := by
      rw [hpb]; exact (mem_partitionChar_fst h1).1
    exact mem_afterLastChar (mem_partitionChar_trd h2)
  · rw [Bool.not_eq_true] at hbr
    subst hbr
    rw [if_neg (by simp)] at h
    rcases hpc : partitionChar ':' (afterLastChar '@' netloc) with ⟨hostname, b2, portRest⟩
    rw [hpc] at h
    dsimp only at h
    have h1 : c ∈ (partitionChar ':' (afterLastChar '@' netloc)).1 := by rw [hpc]; exact h
    exact mem_afterLastChar (mem_partitionChar_fst h1).1

set_option maxHeartbeats 1000000 in
theorem mem_urlunsplit {scheme netloc path query : Str} {c : Char}
    (h : c ∈ urlunsplit scheme netloc path query []) :
    c ∈ scheme ∨ c ∈ netloc ∨ c ∈ path ∨ c ∈ query ∨ c = '/' ∨ c = ':' ∨ c = '?' := by
  unfold urlunsplit at h
  iterate 3
    (all_goals try split_ifs at h
     all_goals try simp only [show str "//" = ['/', '/'] by rfl, List.mem_append,
       List.mem_cons, List.not_mem_nil, or_false, false_or] at h)
  all_goals tauto

theorem mem_reconNetloc {host : Str} {port : Option Nat} {c : Char}
    (h : c ∈ reconNetloc host port) :
    c ∈ host ∨ c = ':' ∨ c.isDigit = true := by
  unfold reconNetloc at h
  cases port with
  | none => exact Or.inl h
  | some p =>
    dsimp only at h
    by_cases hp : p ≠ 0
    · rw [if_pos hp] at h
      rcases List.mem_append.mp h with h | h
      · exact Or.inl h
      · rcases List.mem_cons.mp h with rfl | h
        · exact Or.inr (Or.inl rfl)
        · exact Or.inr (Or.inr (natToDigits_all_digit p c h))
    · rw [if_neg hp] at h
      exact Or.inl h

theorem splitScheme_inv (u s u2 : Str) (h : splitScheme u = (s, u2)) :
    (s = [] ∧ u2 = u) ∨
    ∃ pre, u = pre ++ ':' :: u2 ∧ ':' ∉ pre ∧ s = pyLower pre ∧
      pre ≠ [] ∧ (pre.headD ' ').isAlpha = true ∧ pre.all schemeChar = true := by
  unfold splitScheme at h
  cases hs : splitOnFirst ':' u with
  | none =>
    rw [hs] at h
    injection h with h1 h2
    exact Or.inl ⟨h1.symm, h2.symm⟩
  | some p =>
    rcases p with ⟨pre, post⟩
    rw [hs] at h
    dsimp only at h
    by_cases hc : pre ≠ [] ∧ (pre.headD ' ').isAlpha ∧ pre.all schemeChar
    · rw [if_pos hc] at h
      injection h with h1 h2
      obtain ⟨hsp, hnc⟩ := splitOnFirst_some hs
      subst h2
      exact Or.inr ⟨pre, hsp, hnc, h1.symm, hc.1, hc.2.1, hc.2.2⟩
    · rw [if_neg hc] at h
      injection h with h1 h2
      exact Or.inl ⟨h1.symm, h2.symm⟩

theorem splitNetlocChecked_ok_inv (u2 nl u3 : Str)
    (h : splitNetlocChecked u2 = .ok (nl, u3)) :
    (leadsWith (str "//") u2 = false ∧ nl = [] ∧ u3 = u2) ∨
    (leadsWith (str "//") u2 = true ∧
       nl = (u2.drop 2).takeWhile (fun c => ¬ netlocStop c) ∧
       u3 = (u2.drop 2).dropWhile (fun c => ¬ netlocStop c)) := by
  unfold splitNetlocChecked at h
  cases hl : leadsWith (str "//") u2 with
  | false =>
    rw [if_neg (by simp [hl])] at h
    injection h with h
    injection h with h1 h2
    exact Or.inl ⟨rfl, h1.symm, h2.symm⟩
  | true =>
    rw [if_pos hl] at h
    dsimp only at h
    refine Or.inr ⟨rfl, ?_⟩
    iterate 3 (all_goals try split at h)
    all_goals first
      | exact Except.noConfusion h
      | (injection h with h; injection h with h1 h2; exact ⟨h1.symm, h2.symm⟩)

theorem urlsplit_ok_inv (u : Str) (parts : SplitResult) (h : urlsplit u = .ok parts) :
    ∃ url2 url3 qopt fopt,
      splitScheme (removeUnsafeBytes u) = (parts.scheme, url2) ∧
      splitNetlocChecked url2 = .ok (parts.netloc, url3) ∧
      url3 = parts.path ++ qopt ++ fopt ∧
      (qopt = [] ∧ parts.query = [] ∨ qopt = '?' :: parts.query) ∧
      '#' ∉ parts.path ++ qopt ∧ '?' ∉ parts.path := by
  unfold urlsplit at h
  dsimp only at h
  rcases hss : splitScheme (removeUnsafeBytes u) with ⟨sch, u2⟩
  rw [hss] at h
  dsimp only at h
  cases hn : splitNetlocChecked u2 with
  | error e => rw [hn] at h; exact Except.noConfusion h
  | ok p =>
    rcases p with ⟨nl, u3⟩
    rw [hn] at h
    dsimp only at h
    cases hf : splitOnFirst '#' u3 with
    | none =>
      rw [hf] at h
      dsimp only at h
      cases hq : splitOnFirst '?' u3 with
      | none =>
        rw [hq] at h
        dsimp only at h
        injection h with h
        subst h
        refine ⟨u2, u3, [], [], rfl, hn, by simp, Or.inl ⟨rfl, rfl⟩, ?_, ?_⟩
        · simpa using splitOnFirst_eq_none hf
        · exact splitOnFirst_eq_none hq
      | some pq =>
        rcases pq with ⟨a, b⟩
        rw [hq] at h
        dsimp only at h
        injection h with h
        subst h
        obtain ⟨hu3, hna⟩ := splitOnFirst_some hq
        have hnf := splitOnFirst_eq_none hf
        refine ⟨u2, u3, '?' :: b, [], rfl, hn, by simp [hu3], Or.inr rfl, ?_, hna⟩
        rw [← hu3]
        simpa using hnf
    | some pf =>
      rcases pf with ⟨a4, frag⟩
      rw [hf] at h
      dsimp only at h
      obtain ⟨hu3, hna4⟩ := splitOnFirst_some hf
      cases hq : splitOnFirst '?' a4 with
      | none =>
        rw [hq] at h
        dsimp only at h
        injection h with h
        subst h
        refine ⟨u2, u3, [], '#' :: frag, rfl, hn, by simp [hu3],
          Or.inl ⟨rfl, rfl⟩, by simpa using hna4, splitOnFirst_eq_none hq⟩
      | some pq =>
        rcases pq with ⟨a, b⟩
        rw [hq] at h
        dsimp only at h
        injection h with h
        subst h
        obtain ⟨ha4, hna⟩ := splitOnFirst_some hq
        refine ⟨u2, u3, '?' :: b, '#' :: frag, rfl, hn, ?_, Or.inr rfl, ?_, hna⟩
        · rw [hu3, ha4]
        · rw [← ha4]
          exact hna4

theorem portOf_ok_inv (netloc : Str) (port : Option Nat) (h : portOf netloc = .ok port) :
    ∀ p, port = some p → p ≤ 65535 := by
  unfold portOf at h
  cases hh : (hostinfoOf netloc).2 with
  | none =>
    rw [hh] at h
    injection h with h
    subst h
    intro p hp
    cases hp
  | some q =>
    rw [hh] at h
    dsimp only at h
    split_ifs at h
    all_goals first
      | exact Except.noConfusion h
      | (injection h with h
         subst h
         intro p hp
         injection hp with hp
         subst hp
         assumption)

theorem normalize_parsed_ok_inv (dec : Str → Option Str) (rawP : Str) (n : NormalizedURL)
    (h : normalize_parsed dec rawP = .ok n) :
    ∃ parts port, urlsplit rawP = .ok parts ∧ portOf parts.netloc = .ok port ∧
      n.original = rawP ∧
      n.scheme = pyLower parts.scheme ∧
      n.host = pyLower ((hostnameOf parts.netloc).getD []) ∧
      n.path = (if parts.path = [] then str "/" else parts.path) ∧
      n.query = parts.query ∧
      n.display_host = decode_idn dec n.host ∧
      n.normalized = urlunsplit n.scheme (reconNetloc n.host port) n.path n.query [] := by
  unfold normalize_parsed at h
  simp only [Bind.bind, Except.bind] at h
  cases hs : urlsplit rawP with
  | error e => rw [hs] at h; exact Except.noConfusion h
  | ok parts =>
    rw [hs] at h
    dsimp only at h
    cases hp : portOf parts.netloc with
    | error e => rw [hp] at h; exact Except.noConfusion h
    | ok port =>
      rw [hp] at h
      dsimp only at h
      simp only [pure, Except.pure] at h
      injection h with h
      subst h
      exact ⟨parts, port, rfl, hp, rfl, rfl, rfl, rfl, rfl, rfl, rfl⟩

theorem normalize_url_ok_inv (dec : Str → Option Str) (raw : Str) (n : NormalizedURL)
    (h : normalize_url dec raw = .ok n) :
    pyStrip raw ≠ [] ∧ normalize_parsed dec (prefixScheme (pyStrip raw)) = .ok n := by
  unfold normalize_url at h
  by_cases he : pyStrip raw = []
  · rw [if_pos he] at h
    exact Except.noConfusion h
  · rw [if_neg he] at h
    exact ⟨he, h⟩

theorem netlocStop_eq_false_iff (c : Char) :
    netlocStop c = false ↔ c ≠ '/' ∧ c ≠ '?' ∧ c ≠ '#' := by
  unfold netlocStop
  simp [not_or]

theorem netlocStop_eq_true_iff (c : Char) :
    netlocStop c = true ↔ (c = '/' ∨ c = '?' ∨ c = '#') := by
  unfold netlocStop
  simp

theorem schemeChar_ne (c : Char) (h : schemeChar c = true) :
    c ≠ ':' ∧ c ≠ '/' ∧ c ≠ '?' ∧ c ≠ '#' ∧ c ≠ '@' ∧ c ≠ '\t' ∧ c ≠ '\r' ∧ c ≠ '\n' := by
  have h2 := schemeChar_toNat c h
  refine ⟨fun he => ?_, fun he => ?_, fun he => ?_, fun he => ?_, fun he => ?_,
    fun he => ?_, fun he => ?_, fun he => ?_⟩ <;>
    (subst he; revert h2; decide)

theorem isDigit_ne (c : Char) (h : c.isDigit = true) :
    c ≠ ':' ∧ c ≠ '/' ∧ c ≠ '?' ∧ c ≠ '#' ∧ c ≠ '@' ∧ c ≠ '[' ∧ c ≠ ']' ∧
    c ≠ '\t' ∧ c ≠ '\r' ∧ c ≠ '\n' := by
  rw [isDigit_iff] at h
  refine ⟨fun he => ?_, fun he => ?_, fun he => ?_, fun he => ?_, fun he => ?_,
    fun he => ?_, fun he => ?_, fun he => ?_, fun he => ?_, fun he => ?_⟩ <;>
    (subst he; revert h; decide)

theorem netlocStop_toLower {c : Char} (h : netlocStop c = false) :
    netlocStop (Char.toLower c) = false := by
  rw [netlocStop_eq_false_iff] at h ⊢
  exact ⟨toLower_ne _ _ (by decide) h.1, toLower_ne _ _ (by decide) h.2.1,
    toLower_ne _ _ (by decide) h.2.2⟩

theorem splitScheme_fst_facts (u s u2 : Str) (h : splitScheme u = (s, u2)) :
    pyLower s = s ∧
    (s = [] ∨ ((s.headD ' ').isAlpha = true ∧ s.all schemeChar = true)) := by
  rcases splitScheme_inv u s u2 h with ⟨rfl, -⟩ | ⟨pre, -, -, rfl, hne, hhd, hall⟩
  · exact ⟨rfl, Or.inl rfl⟩
  · refine ⟨pyLower_pyLower pre, Or.inr ⟨?_, ?_⟩⟩
    · cases pre with
      | nil => cases hne rfl
      | cons p t =>
        show (Char.toLower p).isAlpha = true
        exact toLower_isAlpha (by simpa using hhd)
    · rw [List.all_eq_true] at hall ⊢
      intro x hx
      obtain ⟨y, hy, rfl⟩ := mem_pyLower _ _ hx
      exact schemeChar_toLower (hall y hy)

theorem pyLower_hostname (netloc : Str) :
    pyLower ((hostnameOf netloc).getD []) = (hostnameOf netloc).getD [] := by
  unfold hostnameOf
  dsimp only
  by_cases h : (hostinfoOf netloc).1 = []
  · rw [if_pos h]
    rfl
  · rw [if_neg h]
    exact pyLower_pyLower _

theorem mem_hostname {netloc : Str} {c : Char}
    (h : c ∈ (hostnameOf netloc).getD []) :
    ∃ c0, c0 ∈ netloc ∧ c0 ≠ '@' ∧ c = Char.toLower c0 := by
  unfold hostnameOf at h
  dsimp only at h
  by_cases he : (hostinfoOf netloc).1 = []
  · rw [if_pos he] at h
    simp at h
  · rw [if_neg he] at h
    obtain ⟨y, hy, rfl⟩ := mem_pyLower _ _ h
    obtain ⟨hyn, hya⟩ := mem_hostinfo_fst hy
    exact ⟨y, hyn, hya, rfl⟩

theorem hostnameOf_nil : hostnameOf ([] : Str) = none := rfl

theorem mem_removeUnsafeBytes {u : Str} {c : Char} (h : c ∈ removeUnsafeBytes u) :
    c ∈ u ∧ c ≠ '\t' ∧ c ≠ '\r' ∧ c ≠ '\n' := by
  unfold removeUnsafeBytes at h
  have h2 := List.mem_filter.mp h
  refine ⟨h2.1, ?_⟩
  have := h2.2
  simpa using this

theorem urlsplit_ok_sub (u : Str) (parts : SplitResult) (h : urlsplit u = .ok parts) :
    (∀ c ∈ parts.netloc, netlocStop c = false ∧ c ∈ u ∧ c ≠ '\t' ∧ c ≠ '\r' ∧ c ≠ '\n') ∧
    (∀ c, (c ∈ parts.path ∨ c ∈ parts.query) →
       c ∈ u ∧ c ≠ '\t' ∧ c ≠ '\r' ∧ c ≠ '\n') := by
  obtain ⟨url2, url3, qopt, fopt, hss, hn, hu3, hq, -, -⟩ := urlsplit_ok_inv u parts h
  have hmem2 : ∀ c ∈ url2, c ∈ u ∧ c ≠ '\t' ∧ c ≠ '\r' ∧ c ≠ '\n' := by
    intro c hc
    rcases splitScheme_inv _ _ _ hss with ⟨-, he⟩ | ⟨pre, hsp, -, -, -, -, -⟩
    · exact mem_removeUnsafeBytes (he ▸ hc)
    · exact mem_removeUnsafeBytes
        (hsp ▸ List.mem_append.mpr (Or.inr (List.mem_cons_of_mem _ hc)))
  rcases splitNetlocChecked_ok_inv _ _ _ hn with ⟨-, hnl, hu3e⟩ | ⟨hl, hnl, hu3e⟩
  · constructor
    · intro c hc
      rw [hnl] at hc
      simp at hc
    · intro c hc
      have hcu3 : c ∈ url3 := by
        rw [hu3]
        rcases hc with hc | hc
        · exact List.mem_append.mpr (Or.inl (List.mem_append.mpr (Or.inl hc)))
        · rcases hq with ⟨-, hqe⟩ | hqe
          · rw [hqe] at hc
            simp at hc
          · exact List.mem_append.mpr
              (Or.inl (List.mem_append.mpr (Or.inr (hqe ▸ List.mem_cons_of_mem _ hc))))
      exact hmem2 c (by rw [← hu3e]; exact hcu3)
  · obtain ⟨t, hrep⟩ := (leadsWith_iff _ _).mp hl
    have hdrop : url2.drop 2 = t := by rw [hrep]; rfl
    have hmemt : ∀ c ∈ t, c ∈ u ∧ c ≠ '\t' ∧ c ≠ '\r' ∧ c ≠ '\n' := by
      intro c hc
      exact hmem2 c (by rw [hrep]; exact List.mem_append.mpr (Or.inr hc))
    constructor
    · intro c hc
      rw [hnl, hdrop] at hc
      have hstop := pred_of_mem_takeWhile hc
      refine ⟨?_, hmemt c (mem_of_mem_takeWhile hc)⟩
      simpa using hstop
    · intro c hc
      have hcu3 : c ∈ url3 := by
        rw [hu3]
        rcases hc with hc | hc
        · exact List.mem_append.mpr (Or.inl (List.mem_append.mpr (Or.inl hc)))
        · rcases hq with ⟨-, hqe⟩ | hqe
          · rw [hqe] at hc
            simp at hc
          · exact List.mem_append.mpr
              (Or.inl (List.mem_append.mpr (Or.inr (hqe ▸ List.mem_cons_of_mem _ hc))))
      rw [hu3e, hdrop] at hcu3
      exact hmemt c (mem_of_mem_dropWhile hcu3)

theorem urlunsplit_std (scheme netloc path query : Str)
    (hn : netloc ≠ []) (hs : scheme ≠ []) (hp : leadsWith (str "/") path = true) :
    urlunsplit scheme netloc path query [] =
      scheme ++ ':' :: '/' :: '/' ::
        (netloc ++ (path ++ (if query = [] then [] else '?' :: query))) := by
  unfold urlunsplit
  dsimp only
  rw [if_pos (Or.inl hn),
      if_neg (fun hcon : path ≠ [] ∧ ¬ leadsWith (str "/") path = true => hcon.2 hp),
      if_pos hs, if_neg (fun hfr : ([] : Str) ≠ [] => hfr rfl)]
  by_cases hq : query = []
  · rw [if_neg (fun hne : query ≠ [] => hne hq), if_pos hq]
    simp [str, List.append_assoc]
  · rw [if_pos hq, if_neg hq]
    simp [str, List.append_assoc]

/-- Structural facts about every `NormalizedURL` that `normalize_parsed`
produces: the scheme and host are lower-case with their character classes,
the path is non-empty, `#` never survives into any component, the path
starts with `/` whenever there is a host, and `normalized` is the
`urlunsplit` of the components. -/
theorem normalize_components (dec : Str → Option Str) (rawP : Str) (n : NormalizedURL)
    (h : normalize_parsed dec rawP = .ok n) :
    ∃ port : Option Nat,
      pyLower n.scheme = n.scheme ∧
      (n.scheme = [] ∨ ((n.scheme.headD ' ').isAlpha = true ∧ n.scheme.all schemeChar = true)) ∧
      pyLower n.host = n.host ∧
      (∀ c ∈ n.host, netlocStop c = false ∧ c ≠ '@' ∧ c ≠ '\t' ∧ c ≠ '\r' ∧ c ≠ '\n') ∧
      n.path ≠ [] ∧ '#' ∉ n.path ∧ '?' ∉ n.path ∧
      (∀ c ∈ n.path, c ≠ '\t' ∧ c ≠ '\r' ∧ c ≠ '\n') ∧
      (n.host ≠ [] → leadsWith (str "/") n.path = true) ∧
      '#' ∉ n.query ∧ (∀ c ∈ n.query, c ≠ '\t' ∧ c ≠ '\r' ∧ c ≠ '\n') ∧
      (∀ p, port = some p → p ≤ 65535) ∧
      n.normalized = urlunsplit n.scheme (reconNetloc n.host port) n.path n.query [] := by
  obtain ⟨parts, port, hsplit, hport, -, hsch, hhost, hpath, hquery, -, hnorm⟩ :=
    normalize_parsed_ok_inv dec rawP n h
  obtain ⟨url2, url3, qopt, fopt, hss, hn, hu3, hq, hhash, hqm⟩ := urlsplit_ok_inv _ _ hsplit
  obtain ⟨hsub_nl, hsub_pq⟩ := urlsplit_ok_sub _ _ hsplit
  obtain ⟨hslow, hsshape⟩ := splitScheme_fst_facts _ _ _ hss
  have hschid : n.scheme = parts.scheme := by rw [hsch, hslow]
  have hhostid : n.host = (hostnameOf parts.netloc).getD [] := by
    rw [hhost, pyLower_hostname]
  refine ⟨port, ?_, ?_, ?_, ?_, ?_, ?_, ?_, ?_, ?_, ?_, ?_, portOf_ok_inv _ _ hport, hnorm⟩
  · rw [hschid]
    exact hslow
  · rw [hschid]
    exact hsshape
  · rw [hhost]
    exact pyLower_pyLower _
  · intro c hc
    rw [hhostid] at hc
    obtain ⟨c0, hc0n, hc0a, rfl⟩ := mem_hostname hc
    obtain ⟨hstop, -, ht, hr, hnl⟩ := hsub_nl c0 hc0n
    exact ⟨netlocStop_toLower hstop, toLower_ne _ _ (by decide) hc0a,
      toLower_ne _ _ (by decide) ht, toLower_ne _ _ (by decide) hr,
      toLower_ne _ _ (by decide) hnl⟩
  · rw [hpath]
    by_cases he : parts.path = []
    · rw [if_pos he]
      decide
    · rw [if_neg he]
      exact he
  · rw [hpath]
    by_cases he : parts.path = []
    · rw [if_pos he]
      decide
    · rw [if_neg he]
      intro hc
      exact hhash (List.mem_append.mpr (Or.inl hc))
  · rw [hpath]
    by_cases he : parts.path = []
    · rw [if_pos he]
      decide
    · rw [if_neg he]
      exact hqm
  · rw [hpath]
    by_cases he : parts.path = []
    · rw [if_pos he]
      intro c hc
      rw [show str "/" = ['/'] from rfl] at hc
      rcases List.mem_singleton.mp hc with rfl
      decide
    · rw [if_neg he]
      intro c hc
      exact (hsub_pq c (Or.inl hc)).2
  · intro hh
    have hnl_ne : parts.netloc ≠ [] := by
      intro he
      rw [hhostid, he, hostnameOf_nil] at hh
      exact hh rfl
    rcases splitNetlocChecked_ok_inv _ _ _ hn with ⟨-, hnl, -⟩ | ⟨-, -, hu3e⟩
    · exact absurd hnl hnl_ne
    · rw [hpath]
      by_cases he : parts.path = []
      · rw [if_pos he]
        decide
      · rw [if_neg he]
        cases hp0 : parts.path with
        | nil => exact absurd hp0 he
        | cons p0 pt =>
          have hu3c : url3 = p0 :: (pt ++ qopt ++ fopt) := by
            rw [hu3, hp0]
            simp
          have hstop : netlocStop p0 = true := by
            have := dropWhile_head_false (l := url2.drop 2)
              (p := fun c => ¬ netlocStop c) (by rw [← hu3e]; exact hu3c)
            simpa using this
          have hp0mem : p0 ∈ parts.path := by rw [hp0]; exact List.mem_cons_self _ _
          rcases (netlocStop_eq_true_iff p0).mp hstop with rfl | rfl | rfl
          · simp [leadsWith, str]
          · exact absurd hp0mem hqm
          · exact absurd (List.mem_append.mpr (Or.inl hp0mem)) hhash
  · rw [hquery]
    rcases hq with ⟨-, hqe⟩ | hqe
    · rw [hqe]
      simp
    · intro hc
      exact hhash (List.mem_append.mpr (Or.inr (hqe ▸ List.mem_cons_of_mem _ hc)))
  · intro c hc
    rw [hquery] at hc
    exact (hsub_pq c (Or.inr hc)).2

theorem removeUnsafeBytes_https (s : Str) :
    removeUnsafeBytes (str "https://" ++ s) = str "https://" ++ removeUnsafeBytes s := by
  unfold removeUnsafeBytes
  rw [List.filter_append]
  rfl

theorem splitScheme_https (s : Str) :
    splitScheme (str "https://" ++ s) = (str "https", str "//" ++ s) := by
  unfold splitScheme
  have he : str "https://" ++ s = str "https" ++ ':' :: (str "//" ++ s) := rfl
  rw [he, splitOnFirst_append (by decide)]
  dsimp only
  rw [if_pos ⟨by decide, by decide, by decide⟩]
  rfl

theorem leadsWith_colon (s u : Str) : leadsWith (s ++ [':']) (s ++ ':' :: u) = true := by
  have h : s ++ ':' :: u = (s ++ [':']) ++ u := by simp
  rw [h, leadsWith_append]

theorem leadsWith_colon_append (s u x : Str) :
    leadsWith (s ++ [':']) ((s ++ ':' :: u) ++ x) = true := by
  have h : (s ++ ':' :: u) ++ x = (s ++ [':']) ++ (u ++ x) := by simp
  rw [h, leadsWith_append]

theorem urlunsplit_leadsWith (scheme netloc path query : Str) (hs : scheme ≠ []) :
    leadsWith (scheme ++ [':']) (urlunsplit scheme netloc path query []) = true := by
  unfold urlunsplit
  dsimp only
  rw [if_pos hs, if_neg (fun hfr : ([] : Str) ≠ [] => hfr rfl)]
  by_cases hq : query = []
  · rw [if_neg (fun hne : query ≠ [] => hne hq)]
    exact leadsWith_colon _ _
  · rw [if_pos hq]
    exact leadsWith_colon_append _ _ _

theorem normalize_scheme_of_prefixed (dec : Str → Option Str) (s : Str) (n : NormalizedURL)
    (h : normalize_parsed dec (str "https://" ++ s) = .ok n) :
    n.scheme = str "https" := by
  obtain ⟨parts, port, hsplit, -, -, hsch, -, -, -, -, -⟩ := normalize_parsed_ok_inv _ _ _ h
  obtain ⟨url2, url3, qopt, fopt, hss, -, -, -, -, -⟩ := urlsplit_ok_inv _ _ hsplit
  rw [removeUnsafeBytes_https, splitScheme_https] at hss
  injection hss with h1 h2
  rw [hsch, ← h1]
  rfl

/-- C9: `normalize_url` rejects empty/whitespace input with the
"Empty URL" error and prefixes `https://` onto inputs lacking `://`;
for accepted inputs the path is non-empty and the fragment is dropped
(`#` cannot occur in `normalized`), and — amended — the *prefixed*
inputs (those without a `://` separator) get scheme `https` and a
normalized form starting `https:`.  (The original claim's "every
accepted input begins with an explicit scheme" is refuted by
`normalize_url_schemeless_accept`.) -/
theorem normalize_url_scheme_policy (dec : Str → Option Str) (raw : Str) :
    (pyStrip raw = [] → normalize_url dec raw = .error (str "Empty URL")) ∧
    (pyStrip raw ≠ [] → hasSub (str "://") (pyStrip raw) = false →
       normalize_url dec raw = normalize_parsed dec (str "https://" ++ pyStrip raw)) ∧
    ∀ n, normalize_url dec raw = .ok n →
      n.path ≠ [] ∧ '#' ∉ n.normalized ∧
      (hasSub (str "://") (pyStrip raw) = false →
         n.scheme = str "https" ∧ leadsWith (str "https:") n.normalized = true) := by
  have hpre : hasSub (str "://") (pyStrip raw) = false →
      prefixScheme (pyStrip raw) = str "https://" ++ pyStrip raw := by
    intro hnosub
    unfold prefixScheme
    rw [if_pos (by simp [hnosub])]
  refine ⟨?_, ?_, ?_⟩
  · intro he
    unfold normalize_url
    rw [if_pos he]
  · intro hne hnosub
    unfold normalize_url
    rw [if_neg hne, hpre hnosub]
  · intro n hok
    obtain ⟨hne, hpar⟩ := normalize_url_ok_inv dec raw n hok
    obtain ⟨port, hslow, hsshape, hhlow, hhchars, hpne, hpnohash, hpnoq, hpsafe,
      hlead, hqnohash, hqsafe, hple, hnorm⟩ := normalize_components _ _ _ hpar
    refine ⟨hpne, ?_, ?_⟩
    · intro hc
      rw [hnorm] at hc
      rcases mem_urlunsplit hc with hc | hc | hc | hc | hc | hc | hc
      · rcases hsshape with he | ⟨-, hall⟩
        · rw [he] at hc
          simp at hc
        · exact absurd ((List.all_eq_true.mp hall) _ hc) (by decide)
      · rcases mem_reconNetloc hc with hc | hc | hc
        · exact absurd (hhchars _ hc).1 (by decide)
        · exact absurd hc (by decide)
        · exact absurd hc (by decide)
      · exact hpnohash hc
      · exact hqnohash hc
      · exact absurd hc (by decide)
      · exact absurd hc (by decide)
      · exact absurd hc (by decide)
    · intro hnosub
      rw [hpre hnosub] at hpar
      have h9 := normalize_scheme_of_prefixed dec (pyStrip raw) n hpar
      refine ⟨h9, ?_⟩
      rw [show str "https:" = str "https" ++ [':'] from rfl, hnorm, h9]
      exact urlunsplit_leadsWith _ _ _ _ (by decide)

/-- C9 counterexample: the input `://example.com` is accepted although it
has no scheme — `normalize_url` leaves `scheme` empty and returns a
`normalized` string that does not begin with any scheme (`urlsplit` parses
it back with an empty scheme), refuting "the resulting normalized string
begins with an explicit scheme" for inputs that contain `://` but no valid
scheme name before it. -/
theorem normalize_url_schemeless_accept :
    normalize_url noIdna (str "://example.com") =
      .ok { original := str "://example.com", normalized := str "://example.com",
            scheme := [], host := [], path := str "://example.com", query := [],
            display_host := [] } ∧
    (splitScheme (str "://example.com")).1 = [] := ⟨rfl, rfl⟩

/-- C9 witness: the policy theorem applied at the concrete input
`" example.com "`, whose stripped form lacks `://`. -/
theorem normalize_url_scheme_policy_witness :
    pyStrip (str " example.com ") ≠ [] ∧
    hasSub (str "://") (pyStrip (str " example.com ")) = false ∧
    normalize_url noIdna (str " example.com ") = .ok exampleNorm ∧
    exampleNorm.path ≠ [] ∧ '#' ∉ exampleNorm.normalized ∧
    exampleNorm.scheme = str "https" ∧
    leadsWith (str "https:") exampleNorm.normalized = true := by
  have h := (normalize_url_scheme_policy noIdna (str " example.com ")).2.2
    exampleNorm (by rfl)
  exact ⟨by decide, by decide, by rfl, h.1, h.2.1,
    (h.2.2 (by decide)).1, (h.2.2 (by decide)).2⟩

theorem hostinfoOf_recon (host : Str) (port : Option Nat)
    (hcol : ':' ∉ host) (hb1 : '[' ∉ host) (ha : '@' ∉ host) :
    hostinfoOf (reconNetloc host port) =
      (host, match port with
             | some p => if p ≠ 0 then some (natToDigits p) else none
             | none => none) := by
  unfold reconNetloc
  cases port with
  | none =>
    dsimp only
    unfold hostinfoOf
    rw [afterLastChar_of_not_mem ha]
    dsimp only
    rw [partitionChar_not_mem hb1]
    dsimp only
    rw [if_neg (by simp), partitionChar_not_mem hcol]
    dsimp only
    rw [if_pos rfl]
  | some p =>
    dsimp only
    by_cases hp : p ≠ 0
    · rw [if_pos hp]
      have hdig := natToDigits_all_digit p
      have ha2 : '@' ∉ host ++ ':' :: natToDigits p := by
        intro hm
        rcases List.mem_append.mp hm with hm | hm
        · exact ha hm
        · rcases List.mem_cons.mp hm with he | hm
          · exact absurd he (by decide)
          · exact (isDigit_ne _ (hdig _ hm)).2.2.2.2.1 rfl
      have hb12 : '[' ∉ host ++ ':' :: natToDigits p := by
        intro hm
        rcases List.mem_append.mp hm with hm | hm
        · exact hb1 hm
        · rcases List.mem_cons.mp hm with he | hm
          · exact absurd he (by decide)
          · exact (isDigit_ne _ (hdig _ hm)).2.2.2.2.2.1 rfl
      unfold hostinfoOf
      rw [afterLastChar_of_not_mem ha2]
      dsimp only
      rw [partitionChar_not_mem hb12]
      dsimp only
      rw [if_neg (by simp), partitionChar_append hcol]
      dsimp only
      rw [if_neg (natToDigits_ne_nil p), if_pos hp]
    · rw [if_neg hp]
      unfold hostinfoOf
      rw [afterLastChar_of_not_mem ha]
      dsimp only
      rw [partitionChar_not_mem hb1]
      dsimp only
      rw [if_neg (by simp), partitionChar_not_mem hcol]
      dsimp only
      rw [if_pos rfl, if_neg hp]

theorem portOf_recon (host : Str) (port : Option Nat)
    (hle : ∀ p, port = some p → p ≤ 65535)
    (hcol : ':' ∉ host) (hb1 : '[' ∉ host) (ha : '@' ∉ host) :
    portOf (reconNetloc host port) = .ok (portNorm port) := by
  unfold portOf
  rw [hostinfoOf_recon host port hcol hb1 ha]
  unfold portNorm
  cases port with
  | none => rfl
  | some p =>
    dsimp only
    by_cases hp : p ≠ 0
    · rw [if_pos hp, if_pos hp]
      dsimp only
      rw [if_pos (List.all_eq_true.mpr (natToDigits_all_digit p)),
          if_pos (by rw [digitsToNat_natToDigits]; exact hle p rfl),
          digitsToNat_natToDigits]
    · simp only [if_neg hp]

theorem reconNetloc_norm (host : Str) (port : Option Nat) :
    reconNetloc host (portNorm port) = reconNetloc host port := by
  unfold portNorm
  cases port with
  | none => rfl
  | some p =>
    dsimp only
    by_cases hp : p ≠ 0
    · rw [if_pos hp]
    · rw [if_neg hp]
      unfold reconNetloc
      dsimp only
      rw [if_neg hp]

theorem splitScheme_std (scheme R : Str) (hschne : scheme ≠ [])
    (hhd : (scheme.headD ' ').isAlpha = true) (hall : scheme.all schemeChar = true) :
    splitScheme (scheme ++ ':' :: R) = (pyLower scheme, R) := by
  unfold splitScheme
  rw [splitOnFirst_append
    (fun hm => (schemeChar_ne _ (List.all_eq_true.mp hall _ hm)).1 rfl)]
  dsimp only
  rw [if_pos ⟨hschne, hhd, hall⟩]

theorem splitNetlocChecked_std (netl rest : Str)
    (hnetl : ∀ c ∈ netl, netlocStop c = false)
    (hbr1 : '[' ∉ netl) (hbr2 : ']' ∉ netl)
    (hrest : rest = [] ∨ netlocStop (rest.headD ' ') = true) :
    splitNetlocChecked ('/' :: '/' :: (netl ++ rest)) = .ok (netl, rest) := by
  have hpred : ∀ c ∈ netl, (fun c => (¬ netlocStop c : Bool)) c = true := by
    intro c hcm
    simp [hnetl c hcm]
  have htake : (netl ++ rest).takeWhile (fun c => (¬ netlocStop c : Bool)) = netl ∧
      (netl ++ rest).dropWhile (fun c => (¬ netlocStop c : Bool)) = rest := by
    cases rest with
    | nil =>
      rw [List.append_nil]
      exact ⟨takeWhile_all hpred, dropWhile_all hpred⟩
    | cons r0 rs =>
      rcases hrest with hrest | hrest
      · exact absurd hrest (by simp)
      · have hstop : (fun c => (¬ netlocStop c : Bool)) r0 = false := by
          simp only [List.headD_cons] at hrest
          simp [hrest]
        exact takeWhile_append_stop hpred hstop
  have hs1 : hasSub ['['] netl = false := by
    cases hx : hasSub ['['] netl with
    | false => rfl
    | true => exact absurd (hasSub_single.mp hx) hbr1
  have hs2 : hasSub [']'] netl = false := by
    cases hx : hasSub [']'] netl with
    | false => rfl
    | true => exact absurd (hasSub_single.mp hx) hbr2
  unfold splitNetlocChecked
  rw [if_pos (show leadsWith (str "//") ('/' :: '/' :: (netl ++ rest)) = true from rfl)]
  dsimp only
  simp only [List.drop_succ_cons, List.drop_zero]
  rw [htake.1, htake.2]
  rw [if_neg (by simp [hs1, hs2]), if_neg (by simp [hs1, hs2])]

theorem urlsplit_std (scheme netl path query : Str) (hschne : scheme ≠ [])
    (hhd : (scheme.headD ' ').isAlpha = true) (hall : scheme.all schemeChar = true)
    (hnetl : ∀ c ∈ netl, netlocStop c = false)
    (hbr1 : '[' ∉ netl) (hbr2 : ']' ∉ netl)
    (hlead : leadsWith (str "/") path = true)
    (hpnohash : '#' ∉ path) (hpnoq : '?' ∉ path) (hqnohash : '#' ∉ query)
    (hclean : removeUnsafeBytes (scheme ++ ':' :: '/' :: '/' ::
        (netl ++ (path ++ (if query = [] then [] else '?' :: query)))) =
      scheme ++ ':' :: '/' :: '/' ::
        (netl ++ (path ++ (if query = [] then [] else '?' :: query)))) :
    urlsplit (scheme ++ ':' :: '/' :: '/' ::
        (netl ++ (path ++ (if query = [] then [] else '?' :: query)))) =
      .ok ⟨pyLower scheme, netl, path, query, []⟩ := by
  have hqpart : ∀ c ∈ (if query = [] then ([] : Str) else '?' :: query),
      c = '?' ∨ c ∈ query := by
    intro c hcm
    by_cases hq : query = []
    · rw [if_pos hq] at hcm
      simp at hcm
    · rw [if_neg hq] at hcm
      rcases List.mem_cons.mp hcm with rfl | hcm
      · exact Or.inl rfl
      · exact Or.inr hcm
  have hpathrest : path ++ (if query = [] then ([] : Str) else '?' :: query) = [] ∨
      netlocStop ((path ++ (if query = [] then ([] : Str) else '?' :: query)).headD ' ') =
        true := by
    obtain ⟨t, hrep⟩ := (leadsWith_iff _ _).mp hlead
    rw [hrep]
    right
    rfl
  have hnohash2 : '#' ∉ path ++ (if query = [] then ([] : Str) else '?' :: query) := by
    intro hm
    rcases List.mem_append.mp hm with hm | hm
    · exact hpnohash hm
    · rcases hqpart _ hm with he | hm
      · exact absurd he (by decide)
      · exact hqnohash hm
  unfold urlsplit
  dsimp only
  rw [hclean, splitScheme_std scheme _ hschne hhd hall,
      splitNetlocChecked_std netl _ hnetl hbr1 hbr2 hpathrest]
  dsimp only
  rw [splitOnFirst_none hnohash2]
  dsimp only
  by_cases hq : query = []
  · rw [if_pos hq] at hnohash2 ⊢
    rw [List.append_nil, splitOnFirst_none hpnoq]
    dsimp only
    rw [hq]
  · rw [if_neg hq]
    rw [if_neg hq] at hnohash2
    rw [splitOnFirst_append hpnoq]

theorem hostnameOf_recon (host : Str) (port : Option Nat) (hhost : host ≠ [])
    (hlow : pyLower host = host) (hcol : ':' ∉ host) (hb1 : '[' ∉ host)
    (ha : '@' ∉ host) :
    hostnameOf (reconNetloc host port) = some host := by
  unfold hostnameOf
  rw [hostinfoOf_recon host port hcol hb1 ha]
  dsimp only
  rw [if_neg hhost, hlow]

/-- C10 (amended): `normalize_url` is idempotent on every output whose
scheme and host are non-empty, whose host contains no `:`, `[` or `]`,
and whose normalized form is whitespace-stripped: renormalizing
`n.normalized` succeeds and reproduces the `normalized`, `scheme`,
`host`, `path` and `query` fields.  (Unrestricted idempotence is refuted
by `normalize_url_not_idempotent`: an output with an empty host, such as
`normalize_url "/x"`, renormalizes to a different URL.) -/
theorem normalize_url_idempotent (dec : Str → Option Str) (raw : Str) (n : NormalizedURL)
    (hok : normalize_url dec raw = .ok n)
    (hsch : n.scheme ≠ []) (hhost : n.host ≠ [])
    (hcol : ':' ∉ n.host) (hb1 : '[' ∉ n.host) (hb2 : ']' ∉ n.host)
    (hstrip : pyStrip n.normalized = n.normalized) :
    normalize_url dec n.normalized =
      .ok { original := n.normalized, normalized := n.normalized, scheme := n.scheme,
            host := n.host, path := n.path, query := n.query,
            display_host := decode_idn dec n.host } := by
  obtain ⟨-, hpar⟩ := normalize_url_ok_inv dec raw n hok
  obtain ⟨port, hslow, hsshape, hhlow, hhchars, hpne, hpnohash, hpnoq, hpsafe,
    hlead, hqnohash, hqsafe, hple, hnorm⟩ := normalize_components _ _ _ hpar
  rcases hsshape with he | ⟨hhd, hall⟩
  · exact absurd he hsch
  have hleadp := hlead hhost
  have ha : '@' ∉ n.host := fun hm => (hhchars _ hm).2.1 rfl
  have hnetl : ∀ c ∈ reconNetloc n.host port, netlocStop c = false := by
    intro c hcm
    rcases mem_reconNetloc hcm with hm | rfl | hm
    · exact (hhchars _ hm).1
    · decide
    · have hd := isDigit_ne _ hm
      rw [netlocStop_eq_false_iff]
      exact ⟨hd.2.1, hd.2.2.1, hd.2.2.2.1⟩
  have hrb1 : '[' ∉ reconNetloc n.host port := by
    intro hm
    rcases mem_reconNetloc hm with hm | he | hm
    · exact hb1 hm
    · exact absurd he (by decide)
    · exact absurd hm (by decide)
  have hrb2 : ']' ∉ reconNetloc n.host port := by
    intro hm
    rcases mem_reconNetloc hm with hm | he | hm
    · exact hb2 hm
    · exact absurd he (by decide)
    · exact absurd hm (by decide)
  have hnetl_ne : reconNetloc n.host port ≠ [] := by
    unfold reconNetloc
    cases port with
    | none => exact hhost
    | some p =>
      dsimp only
      by_cases hp : p ≠ 0
      · rw [if_pos hp]
        intro he
        exact hhost (List.append_eq_nil.mp he).1
      · rw [if_neg hp]
        exact hhost
  have hnormS : n.normalized = n.scheme ++ ':' :: '/' :: '/' ::
      (reconNetloc n.host port ++
        (n.path ++ (if n.query = [] then [] else '?' :: n.query))) := by
    rw [hnorm, urlunsplit_std _ _ _ _ hnetl_ne hsch hleadp]
  have hsafeS : ∀ x ∈ n.normalized, x ≠ '\t' ∧ x ≠ '\r' ∧ x ≠ '\n' := by
    intro x hx
    rw [hnorm] at hx
    rcases mem_urlunsplit hx with hx | hx | hx | hx | rfl | rfl | rfl
    · have h8 := schemeChar_ne _ (List.all_eq_true.mp hall _ hx)
      exact ⟨h8.2.2.2.2.2.1, h8.2.2.2.2.2.2.1, h8.2.2.2.2.2.2.2⟩
    · rcases mem_reconNetloc hx with hm | rfl | hm
      · exact (hhchars _ hm).2.2
      · exact ⟨by decide, by decide, by decide⟩
      · have hd := isDigit_ne _ hm
        exact ⟨hd.2.2.2.2.2.2.2.1, hd.2.2.2.2.2.2.2.2.1, hd.2.2.2.2.2.2.2.2.2⟩
    · exact hpsafe _ hx
    · exact hqsafe _ hx
    · exact ⟨by decide, by decide, by decide⟩
    · exact ⟨by decide, by decide, by decide⟩
    · exact ⟨by decide, by decide, by decide⟩
  have hclean0 : removeUnsafeBytes n.normalized = n.normalized :=
    removeUnsafeBytes_id hsafeS
  have hnne : n.normalized ≠ [] := by
    rw [hnormS]
    simp
  have hsub0 : hasSub (str "://") n.normalized = true := by
    rw [hnormS]
    exact hasSub_middle (str "://") n.scheme _
  have hcleanS : removeUnsafeBytes (n.scheme ++ ':' :: '/' :: '/' ::
      (reconNetloc n.host port ++
        (n.path ++ (if n.query = [] then [] else '?' :: n.query)))) =
      n.scheme ++ ':' :: '/' :: '/' ::
        (reconNetloc n.host port ++
          (n.path ++ (if n.query = [] then [] else '?' :: n.query))) := by
    rw [← hnormS]
    exact hclean0
  have hsplit2 : urlsplit n.normalized =
      .ok ⟨n.scheme, reconNetloc n.host port, n.path, n.query, []⟩ := by
    rw [hnormS, urlsplit_std n.scheme (reconNetloc n.host port) n.path n.query hsch hhd
      hall hnetl hrb1 hrb2 hleadp hpnohash hpnoq hqnohash hcleanS, hslow]
  have hhn : hostnameOf (reconNetloc n.host port) = some n.host :=
    hostnameOf_recon n.host port hhost hhlow hcol hb1 ha
  have hpo : portOf (reconNetloc n.host port) = .ok (portNorm port) :=
    portOf_recon n.host port hple hcol hb1 ha
  unfold normalize_url
  dsimp only
  rw [hstrip, if_neg hnne]
  unfold prefixScheme
  rw [if_neg (by simp [hsub0])]
  unfold normalize_parsed
  simp only [Bind.bind, Except.bind]
  rw [hsplit2]
  dsimp only
  rw [hhn]
  simp only [Option.getD_some]
  rw [hpo]
  dsimp only
  simp only [pure, Except.pure]
  rw [hslow, hhlow, if_neg hpne, reconNetloc_norm, ← hnorm]

/-- C10 counterexample: normalization is not idempotent in general — the
accepted input `/x` normalizes to `https:/x` with an empty host, and
renormalizing `https:/x` prefixes `https://` again (the string contains
no `://`), producing `https://https/x` whose host is `https`: the
`normalized` and `host` fields both change on the second pass. -/
theorem normalize_url_not_idempotent :
    (normalize_url noIdna (str "/x")).map (fun n => (n.normalized, n.host)) =
      .ok (str "https:/x", []) ∧
    (normalize_url noIdna (str "https:/x")).map (fun n => (n.normalized, n.host)) =
      .ok (str "https://https/x", str "https") ∧
    str "https://https/x" ≠ str "https:/x" := ⟨rfl, rfl, by decide⟩

/-- C10 witness: the idempotence theorem applied to the output of
`normalize_url` at `https://example.com:8080/a?b=c`, which satisfies all
its side conditions. -/
theorem normalize_url_idempotent_witness :
    normalize_url noIdna (str "https://example.com:8080/a?b=c") = .ok idemNorm ∧
    idemNorm.scheme ≠ [] ∧ idemNorm.host ≠ [] ∧ ':' ∉ idemNorm.host ∧
    '[' ∉ idemNorm.host ∧ ']' ∉ idemNorm.host ∧
    pyStrip idemNorm.normalized = idemNorm.normalized ∧
    normalize_url noIdna idemNorm.normalized =
      .ok { original := idemNorm.normalized, normalized := idemNorm.normalized,
            scheme := idemNorm.scheme, host := idemNorm.host, path := idemNorm.path,
            query := idemNorm.query,
            display_host := decode_idn noIdna idemNorm.host } := by
  refine ⟨by rfl, by decide, by decide, by decide, by decide, by decide, by rfl, ?_⟩
  exact normalize_url_idempotent noIdna (str "https://example.com:8080/a?b=c") idemNorm
    (by rfl) (by decide) (by decide) (by decide) (by decide) (by decide) (by rfl)

theorem to_punycode_ascii (enc : Str → Option Str) (host : Str)
    (h : host.all (fun c => c.toNat < 128) = true) : to_punycode enc host = host := by
  unfold to_punycode
  by_cases he : host = []
  · rw [if_pos he]
  · rw [if_neg he, if_pos h]

theorem lookup_parsed_agrees (enc dec : Str → Option Str) (rawP : Str)
    (hA : ∀ c ∈ rawP, c.toNat < 128) :
    lookup_parsed enc rawP = (normalize_parsed dec rawP).map (fun n => n.normalized) := by
  unfold lookup_parsed normalize_parsed
  simp only [Bind.bind, Except.bind]
  cases hs : urlsplit rawP with
  | error e => rfl
  | ok parts =>
    dsimp only
    cases hp : portOf parts.netloc with
    | error e => rfl
    | ok port =>
      dsimp only
      simp only [pure, Except.pure, Except.map]
      have hascii : (pyLower ((hostnameOf parts.netloc).getD [])).all
          (fun c => c.toNat < 128) = true := by
        rw [List.all_eq_true]
        intro x hx
        simp only [decide_eq_true_eq]
        obtain ⟨y, hy, rfl⟩ := mem_pyLower _ _ hx
        obtain ⟨c0, hc0n, -, rfl⟩ := mem_hostname hy
        have h0 : c0.toNat < 128 := hA c0 ((urlsplit_ok_sub _ _ hs).1 c0 hc0n).2.1
        have h1 : (Char.toLower c0).toNat < 128 := by
          rcases toLower_cases c0 with he | he
          · rw [he]
            exact h0
          · omega
        rcases toLower_cases (Char.toLower c0) with he | he
        · rw [he]
          exact h1
        · omega
      rw [to_punycode_ascii enc _ hascii]

theorem lookup_agrees (enc dec : Str → Option Str) (raw0 : Str)
    (hA : ∀ c ∈ raw0, pyIsSpace c = false ∧ c.toNat < 128) :
    normalize_for_lookup enc raw0 =
      (normalize_url dec raw0).map (fun n => n.normalized) := by
  have hfilter : (pyStrip raw0).filter (fun c => ¬ pyIsSpace c) = pyStrip raw0 := by
    rw [List.filter_eq_self]
    intro x hx
    simp [(hA x (mem_pyStrip hx)).1]
  unfold normalize_for_lookup normalize_url
  rw [hfilter]
  by_cases he : pyStrip raw0 = []
  · rw [if_pos he, if_pos he]
    rfl
  · rw [if_neg he, if_neg he]
    apply lookup_parsed_agrees
    intro c hc
    unfold prefixScheme at hc
    by_cases hsub : hasSub (str "://") (pyStrip raw0)
    · rw [if_neg (by simp [hsub])] at hc
      exact (hA c (mem_pyStrip hc)).2
    · rw [if_pos (by simp [hsub])] at hc
      rcases List.mem_append.mp hc with hc | hc
      · have : ∀ c ∈ str "https://", c.toNat < 128 := by decide
        exact this c hc
      · exact (hA c (mem_pyStrip hc)).2

/-- C4 (amended): for whitespace-free all-ASCII inputs the safe-browsing
lookup key (`normalize_for_lookup`, punycode host) and the engine's
`NormalizedURL.normalized` form agree exactly — for an ASCII host the
punycode encoding is the identity, and the two pipelines differ only in
that encoding; but the threat-feed match key of `check_url` is *not*
this canonical form: it lower-cases and strips trailing slashes, so it
differs from every normalized URL that ends in `/` (which every
root-path URL does). -/
theorem canonicalization_agreement (enc dec : Str → Option Str) (raw0 : Str)
    (hA : ∀ c ∈ raw0, pyIsSpace c = false ∧ c.toNat < 128) :
    normalize_for_lookup enc raw0 =
      (normalize_url dec raw0).map (fun n => n.normalized) ∧
    ∀ u : Str, feed_match_key (u ++ ['/']) ≠ u ++ ['/'] := by
  refine ⟨lookup_agrees enc dec raw0 hA, ?_⟩
  intro u he
  have hmap : pyLower (u ++ ['/']) = pyLower u ++ ['/'] := by
    unfold pyLower
    rw [List.map_append]
    rfl
  have hstep : feed_match_key (u ++ ['/']) =
      ((pyLower u).reverse.dropWhile (· = '/')).reverse := by
    unfold feed_match_key rstripSlash
    rw [hmap, List.reverse_append]
    rfl
  have hlen : (feed_match_key (u ++ ['/'])).length ≤ u.length := by
    rw [hstep, List.length_reverse]
    calc ((pyLower u).reverse.dropWhile (· = '/')).length
        ≤ (pyLower u).reverse.length := (List.dropWhile_sublist _).length_le
      _ = u.length := by rw [List.length_reverse]; exact List.length_map _ _
  rw [he] at hlen
  simp at hlen

/-- C4 counterexample: the three "canonical" keys are not all equal —
for `https://example.com` the engine's normalized form and the
safe-browsing key are both `https://example.com/`, but `check_url`'s
threat-feed match key lower-cases and strips the trailing slash, giving
`https://example.com`, a different string.  Feed matching therefore uses
its own normalization, not the shared canonical form. -/
theorem canonicalization_mismatch :
    (normalize_url noIdna (str "https://example.com")).map (fun n => n.normalized) =
      .ok (str "https://example.com/") ∧
    normalize_for_lookup noIdna (str "https://example.com") =
      .ok (str "https://example.com/") ∧
    feed_match_key (str "https://example.com/") = str "https://example.com" ∧
    feed_match_key (str "https://example.com/") ≠ str "https://example.com/" :=
  ⟨rfl, rfl, rfl, by decide⟩

/-- C4 witness: the agreement theorem applied at `https://example.com`
(all-ASCII, no whitespace) and at the slash-terminated key `x/`. -/
theorem canonicalization_agreement_witness :
    (∀ c ∈ str "https://example.com", pyIsSpace c = false ∧ c.toNat < 128) ∧
    normalize_for_lookup noIdna (str "https://example.com") =
      (normalize_url noIdna (str "https://example.com")).map (fun n => n.normalized) ∧
    feed_match_key (str "x" ++ ['/']) ≠ str "x" ++ ['/'] := by
  have h := canonicalization_agreement noIdna noIdna (str "https://example.com") (by decide)
  exact ⟨by decide, h.1, h.2 (str "x")⟩

end LinkGuard
